import Mathlib

/-!
Verification development for the map-to-geojson backend.

The Python source is shallowly embedded: pixel images become functions
from integer coordinates to colors, numpy float arithmetic on small
integers becomes exact arithmetic over `Int`/`ℚ`, the BFS flood fill
becomes an explicit fuelled worklist recursion, and calls into external
libraries (OpenCV contour extraction/simplification, shapely geometry)
are modelled by explicit parameters or by definitions taken from those
libraries' documented semantics, as noted at each definition.
-/

namespace MapSpec

/-- Pixel position `(x, y)` with integer coordinates, as in the source. -/
abbrev Pos := Int × Int

/-- Color triple in OpenCV BGR channel order, components as integers. -/
abbrev Color := Int × Int × Int

/-- `boundary_bgr` (magic_wand.py line 41): the RGB `boundary_color`
reversed into BGR channel order. -/
def boundaryBGR (boundary_color : Color) : Color :=
  (boundary_color.2.2, boundary_color.2.1, boundary_color.1)

/-- Squared Euclidean color distance.  The source compares
`sqrt (sum of squared channel differences) <= tolerance * sqrt 3`
(magic_wand.py lines 46-47); both sides are nonnegative, so squaring gives
the equivalent integer comparison `sum <= 3 * tolerance^2` used below,
avoiding a floating-point square root in the model. -/
def sqColorDist (a b : Color) : Int :=
  (a.1 - b.1) ^ 2 + (a.2.1 - b.2.1) ^ 2 + (a.2.2 - b.2.2) ^ 2

/-- `boundary_mask` (magic_wand.py lines 43-47): a pixel is classified as
boundary when its Euclidean color distance to the boundary color is at most
`tolerance * sqrt 3`, stated here with both sides squared. -/
def isBoundaryPix (image : Pos → Color) (boundary_color : Color)
    (tol : Int) (p : Pos) : Bool :=
  sqColorDist (image p) (boundaryBGR boundary_color) ≤ 3 * tol ^ 2

/-- Bounds check `0 <= x < w and 0 <= y < h` used throughout the source. -/
def inBounds (w h : Int) (p : Pos) : Bool :=
  decide (0 ≤ p.1) && decide (p.1 < w) && decide (0 ≤ p.2) && decide (p.2 < h)

/-- The 4-connected neighbor offsets, in the order the source iterates
them (magic_wand.py line 77). -/
def dirs : List Pos := [(-1, 0), (1, 0), (0, -1), (0, 1)]

/-- State of the BFS flood fill of `magic_wand_select_boundary`
(magic_wand.py lines 56-94): the list of popped (selected) pixels, the
visited set, the FIFO queue, and the incrementally tracked bounding box. -/
structure FillState where
  mask : List Pos
  visited : List Pos
  queue : List Pos
  minX : Int
  maxX : Int
  minY : Int
  maxY : Int
deriving Repr, DecidableEq

/-- One iteration of the neighbor loop (magic_wand.py lines 77-94) on the
pair (visited, queue): skip when out of bounds or already visited;
otherwise mark visited, and enqueue only non-boundary pixels. -/
def processNeighbor (w h : Int) (bdy : Pos → Bool) (p : Pos)
    (acc : List Pos × List Pos) (d : Pos) : List Pos × List Pos :=
  let n : Pos := (p.1 + d.1, p.2 + d.2)
  if inBounds w h n then
    if n ∈ acc.1 then acc
    else if bdy n then (n :: acc.1, acc.2)
    else (n :: acc.1, acc.2 ++ [n])
  else acc

/-- The BFS loop `while queue:` (magic_wand.py lines 64-94), fuelled.  Each
iteration pops the queue front, adds it to the selection, widens the
bounding box, and processes the four neighbors.  The fuel is an upper bound
on the number of iterations; `bfsFuelSufficient` below shows the fuel used
by `magic_wand_select_boundary` always drains the queue, so the fuelled
recursion is a faithful rendering of the source's unbounded loop. -/
def bfsRun (w h : Int) (bdy : Pos → Bool) : Nat → FillState → FillState
  | 0, s => s
  | Nat.succ fuel, s =>
    match s.queue with
    | [] => s
    | p :: rest =>
      let vq := dirs.foldl (processNeighbor w h bdy p) (s.visited, rest)
      bfsRun w h bdy fuel
        { mask := p :: s.mask
          visited := vq.1
          queue := vq.2
          minX := min s.minX p.1
          maxX := max s.maxX p.1
          minY := min s.minY p.2
          maxY := max s.maxY p.2 }

/-- Pixel-space bounding box dictionary `{x, y, width, height}`. -/
structure Bbox where
  x : Int
  y : Int
  width : Int
  height : Int
deriving Repr, DecidableEq

/-- The all-zero "empty/no selection" sentinel box. -/
def zeroBbox : Bbox := { x := 0, y := 0, width := 0, height := 0 }

/-- Result of a magic-wand selection: the set pixels of the binary mask,
the bounding box, and the optional `"error"` entry of the returned
dictionary (only ever `"selection_too_large"` in the source). -/
structure SelectResult where
  mask : List Pos
  bbox : Bbox
  error : Option String
deriving Repr, DecidableEq

/-- Initial BFS state for a given seed (magic_wand.py lines 57-62). -/
def initState (seed_x seed_y : Int) : FillState :=
  { mask := [], visited := [(seed_x, seed_y)], queue := [(seed_x, seed_y)]
    minX := seed_x, maxX := seed_x, minY := seed_y, maxY := seed_y }

/-- The `ValueError` message both selection modes raise for an
out-of-bounds seed (magic_wand.py lines 38 and 141). -/
def oobMessage (seed_x seed_y w h : Int) : String :=
  "Seed point (" ++ toString seed_x ++ ", " ++ toString seed_y ++
    ") out of image bounds (" ++ toString w ++ "x" ++ toString h ++ ")"

/-- `magic_wand_select_boundary` (magic_wand.py lines 12-114).  The raised
`ValueError` for an out-of-bounds seed becomes `Except.error` with the
source's message.  `selected / total > 0.8` on floats is rendered as the
exact comparison `5 * selected > 4 * total` (equivalent for the pixel
counts involved); the number of set mask pixels is the number of distinct
popped positions. -/
def magic_wand_select_boundary (w h : Int) (image : Pos → Color)
    (seed_x seed_y : Int) (boundary_color : Color)
    (boundary_tolerance : Int) : Except String SelectResult :=
  if inBounds w h (seed_x, seed_y) then
    let bdy := isBoundaryPix image boundary_color boundary_tolerance
    if bdy (seed_x, seed_y) then
      Except.ok { mask := [], bbox := zeroBbox, error := none }
    else
      let st := bfsRun w h bdy (w * h).toNat (initState seed_x seed_y)
      if 5 * st.mask.dedup.length > 4 * (w * h).toNat then
        Except.ok { mask := [], bbox := zeroBbox,
                    error := some "selection_too_large" }
      else
        Except.ok { mask := st.mask
                    bbox := { x := st.minX, y := st.minY,
                              width := st.maxX - st.minX + 1,
                              height := st.maxY - st.minY + 1 }
                    error := none }
  else
    Except.error (oobMessage seed_x seed_y w h)

/-- One legal flood-fill propagation step: `q` is a 4-connected neighbor of
`p` that is in bounds and not classified boundary (the enqueue conditions of
magic_wand.py lines 77-94). -/
def FillStep (w h : Int) (bdy : Pos → Bool) (p q : Pos) : Prop :=
  (∃ d ∈ dirs, q = (p.1 + d.1, p.2 + d.2)) ∧
    inBounds w h q = true ∧ bdy q = false

/-- Reachability from the seed through in-bounds non-boundary pixels. -/
def Reaches (w h : Int) (bdy : Pos → Bool) (seed p : Pos) : Prop :=
  Relation.ReflTransGen (FillStep w h bdy) seed p

/-- Loop invariant of the BFS flood fill: the visited list never repeats
and stays in bounds, the queue and mask hold only visited, reachable,
non-boundary pixels, every visited pixel is selected, pending, or boundary,
and every in-bounds neighbor of a selected pixel has been visited. -/
structure Inv (w h : Int) (bdy : Pos → Bool) (seed : Pos)
    (s : FillState) : Prop where
  vis_nodup : s.visited.Nodup
  vis_inb : ∀ p ∈ s.visited, inBounds w h p = true
  seed_vis : seed ∈ s.visited
  queue_vis : ∀ p ∈ s.queue, p ∈ s.visited
  queue_nb : ∀ p ∈ s.queue, bdy p = false
  mask_nb : ∀ p ∈ s.mask, bdy p = false
  reach_mask : ∀ p ∈ s.mask, Reaches w h bdy seed p
  reach_queue : ∀ p ∈ s.queue, Reaches w h bdy seed p
  vis_cases : ∀ p ∈ s.visited, p ∈ s.mask ∨ p ∈ s.queue ∨ bdy p = true
  mask_closed : ∀ p ∈ s.mask, ∀ d ∈ dirs,
    inBounds w h (p.1 + d.1, p.2 + d.2) = true →
      (p.1 + d.1, p.2 + d.2) ∈ s.visited

/-- The state reached after popping `p` (body of the `while` loop). -/
def popState (w h : Int) (bdy : Pos → Bool) (p : Pos) (rest : List Pos)
    (s : FillState) : FillState :=
  let vq := dirs.foldl (processNeighbor w h bdy p) (s.visited, rest)
  { mask := p :: s.mask
    visited := vq.1
    queue := vq.2
    minX := min s.minX p.1
    maxX := max s.maxX p.1
    minY := min s.minY p.2
    maxY := max s.maxY p.2 }

/-- The in-bounds pixel grid as a finite set. -/
def inbFinset (w h : Int) : Finset Pos :=
  Finset.Icc 0 (w - 1) ×ˢ Finset.Icc 0 (h - 1)


/-- Bounding box of a nonempty list of selected pixels, as computed from
`np.where(result_mask > 0)` in magic_wand.py lines 166-179. -/
def bboxOfPos (p : Pos) (rest : List Pos) : Bbox :=
  let xmin := rest.foldl (fun m q => min m q.1) p.1
  let xmax := rest.foldl (fun m q => max m q.1) p.1
  let ymin := rest.foldl (fun m q => min m q.2) p.2
  let ymax := rest.foldl (fun m q => max m q.2) p.2
  { x := xmin, y := ymin, width := xmax - xmin + 1, height := ymax - ymin + 1 }

/-- `magic_wand_select_tolerance` (magic_wand.py lines 117-181).  The seed
bounds check is the source's; the fill itself is `cv2.floodFill`, an
external OpenCV routine whose set-pixel output is taken as the parameter
`fill`.  The bounding box is computed from the fill's points, with the
all-zero sentinel when the fill is empty; `tolerance` is consumed by the
external fill. -/
def magic_wand_select_tolerance (fill : List Pos) (w h : Int)
    (seed_x seed_y tolerance : Int) : Except String SelectResult :=
  if inBounds w h (seed_x, seed_y) then
    match fill with
    | [] => Except.ok { mask := [], bbox := zeroBbox, error := none }
    | p :: rest =>
      Except.ok { mask := p :: rest, bbox := bboxOfPos p rest, error := none }
  else
    Except.error (oobMessage seed_x seed_y w h)

/-- `magic_wand_select` (magic_wand.py lines 184-211): mode dispatch. -/
def magic_wand_select (fill : List Pos) (w h : Int) (image : Pos → Color)
    (seed_x seed_y : Int) (use_boundary_mode : Bool)
    (boundary_color : Color) (boundary_tolerance tolerance : Int) :
    Except String SelectResult :=
  if use_boundary_mode then
    magic_wand_select_boundary w h image seed_x seed_y boundary_color
      boundary_tolerance
  else
    magic_wand_select_tolerance fill w h seed_x seed_y tolerance

/-- A 2-D point with exact rational coordinates (the model of the Python
floats flowing through vectorization and georeferencing). -/
abbrev Pt := ℚ × ℚ

/-- Cross product term of the shoelace formula. -/
def cross2 (a b : Pt) : ℚ := a.1 * b.2 - b.1 * a.2

/-- Cyclic consecutive vertex pairs of a contour (the polygon edges the
OpenCV Green-formula integrals run over). -/
def cyclePairs (c : List Pt) : List (Pt × Pt) :=
  match c with
  | [] => []
  | p :: _ => c.zip (c.tail ++ [p])

/-- `cv2.contourArea`, modelled from its documentation: the absolute value
of the Green-formula (shoelace) signed area of the polygon spanned by the
contour points. -/
def contourArea (c : List Pt) : ℚ :=
  |((cyclePairs c).map (fun e => cross2 e.1 e.2)).sum| / 2

/-- `max(contours, key=cv2.contourArea)` (magic_wand.py line 239):
Python's `max` keeps the first of several maxima. -/
def maxByArea : List (List Pt) → List Pt
  | [] => []
  | c :: cs => cs.foldl
      (fun best x => if contourArea best < contourArea x then x else best) c

/-- Spatial moment `m00` of `cv2.moments` on a contour, modelled from the
documented Green-formula semantics (the signed polygon area). -/
def momentM00 (c : List Pt) : ℚ :=
  ((cyclePairs c).map (fun e => cross2 e.1 e.2)).sum / 2

/-- Spatial moment `m10` of `cv2.moments` on a contour (Green formula). -/
def momentM10 (c : List Pt) : ℚ :=
  ((cyclePairs c).map (fun e => (e.1.1 + e.2.1) * cross2 e.1 e.2)).sum / 6

/-- Spatial moment `m01` of `cv2.moments` on a contour (Green formula). -/
def momentM01 (c : List Pt) : ℚ :=
  ((cyclePairs c).map (fun e => (e.1.2 + e.2.2) * cross2 e.1 e.2)).sum / 6

/-- `cv2.boundingRect` of a contour, as `(x, y, width, height)` with the
inclusive integer-extent convention. -/
def boundingRectQ : List Pt → ℚ × ℚ × ℚ × ℚ
  | [] => (0, 0, 0, 0)
  | p :: rest =>
    let xmin := rest.foldl (fun m q => min m q.1) p.1
    let xmax := rest.foldl (fun m q => max m q.1) p.1
    let ymin := rest.foldl (fun m q => min m q.2) p.2
    let ymax := rest.foldl (fun m q => max m q.2) p.2
    (xmin, ymin, xmax - xmin + 1, ymax - ymin + 1)

/-- The explicit ring closing shared by both vectorization paths
(`if coords[0] != coords[-1]: coords.append(coords[0])`), magic_wand.py
lines 259-260 and image_processing.py lines 101-102. -/
def closeRing (c : List Pt) : List Pt :=
  match c with
  | [] => []
  | p :: _ => if c.getLast? = some p then c else c ++ [p]

/-- Output of `mask_to_polygon`: the GeoJSON-style coordinates (a single
exterior ring), the centroid, and the contour area. -/
structure PolyOut where
  polygon : List (List Pt)
  centroid : Pt
  area : ℚ
deriving Repr, DecidableEq

/-- `mask_to_polygon` (magic_wand.py lines 214-277).  `cv2.findContours`
is external; its output contour list is this function's `contours`
argument.  `cv2.approxPolyDP` is external as well and is passed as
`approx` (first argument the epsilon, i.e. the simplify tolerance).  The
source's `len(points.shape) == 1` squeeze check fires only for a
single-point simplified contour and is subsumed by the preceding
`len(simplified) < 3` check. -/
def mask_to_polygon (approx : ℚ → List Pt → List Pt)
    (contours : List (List Pt)) (simplify_tolerance : ℚ) : Option PolyOut :=
  match contours with
  | [] => none
  | _ :: _ =>
    let contour := maxByArea contours
    let area := contourArea contour
    if area < 10 then none
    else
      let simplified := approx simplify_tolerance contour
      if simplified.length < 3 then none
      else
        let ring := closeRing simplified
        let centroid :=
          if momentM00 contour ≠ 0 then
            (momentM10 contour / momentM00 contour,
             momentM01 contour / momentM00 contour)
          else
            let r := boundingRectQ contour
            (r.1 + r.2.2.1 / 2, r.2.1 + r.2.2.2 / 2)
        some { polygon := [ring], centroid := centroid, area := area }

/-- `contour_to_polygon` (image_processing.py lines 94-107): `squeeze`
collapses a single-point contour to a 1-D array (`None`); otherwise the
ring is closed and returned only when it has at least 4 coordinates.
(`cv2.findContours` never produces an empty contour; the empty case is
mapped to `None` here to keep the model total.) -/
def contour_to_polygon (contour : List Pt) : Option (List (List Pt)) :=
  match contour with
  | [] => none
  | [_] => none
  | _ :: _ :: _ =>
    let ring := closeRing contour
    if ring.length < 4 then none
    else some [ring]

/-- `compute_centroid` (services/georeference.py lines 8-18): the plain
arithmetic mean of the first ring's vertices with the closing point
dropped (`ring[:-1]`); `(0, 0)` for a missing/empty ring or when no
points remain. -/
def compute_centroid (coords : List (List Pt)) : Pt :=
  let ring := match coords with
    | [] => []
    | r :: _ => r
  match ring with
  | [] => (0, 0)
  | _ :: _ =>
    let pts := ring.dropLast
    let n := pts.length
    if 0 < n then
      ((pts.map Prod.fst).sum / (n : ℚ), (pts.map Prod.snd).sum / (n : ℚ))
    else (0, 0)

/-- Zero padding of `f"ZONE_{i:04d}"`: decimal digits padded with leading
zeros to width 4. -/
def pad4 (i : Nat) : String :=
  let s := toString i
  if s.length < 4 then
    String.mk (List.replicate (4 - s.length) '0') ++ s
  else s

/-- The zone identifier format `ZONE_` followed by the zero-padded 1-based
sequence number (georeference.py line 39). -/
def zoneId (i : Nat) : String := "ZONE_" ++ pad4 i

/-- The sort key comparison of `assign_zone_ids`: Python tuple order on
`(centroid_y, centroid_x)`, both ascending (georeference.py line 35). -/
def centroidLE (a b : Pt) : Bool :=
  decide (a.2 < b.2) || (decide (a.2 = b.2) && decide (a.1 ≤ b.1))

/-- `assign_zone_ids` (georeference.py lines 21-47): compute each
polygon's centroid, stably sort by `(centroid_y, centroid_x)` (Python's
`list.sort` is a stable merge sort, modelled by `List.mergeSort`), and
emit features `(zone_id, geometry)` numbered from 1 in sorted order. -/
def assign_zone_ids (polygons : List (List (List Pt))) :
    List (String × List (List Pt)) :=
  let data := polygons.map (fun p => (compute_centroid p, p))
  let sorted := data.mergeSort (fun a b => centroidLE a.1 b.1)
  sorted.enum.map (fun iz => (zoneId (iz.1 + 1), iz.2.2))

/-- A georeference control point (schemas.py lines 21-25). -/
structure GeoreferencePoint where
  image_x : ℚ
  image_y : ℚ
  geo_lng : ℚ
  geo_lat : ℚ
deriving Repr, DecidableEq

/-- The rectangular georeference spec (schemas.py lines 28-32). -/
structure BoundingBoxGeo where
  top_left_lat : ℚ
  top_left_lng : ℚ
  bottom_right_lat : ℚ
  bottom_right_lng : ℚ
deriving Repr, DecidableEq

/-- Bounding-box branch of `transform_coordinates` (georeference.py lines
59-75): normalize pixel coordinates by the image dimensions, then
interpolate linearly into the lat/lng rectangle, per axis. -/
def bboxTransformPoint (bb : BoundingBoxGeo) (img_width img_height : ℚ)
    (p : Pt) : Pt :=
  let norm_x := p.1 / img_width
  let norm_y := p.2 / img_height
  (bb.top_left_lng + norm_x * (bb.bottom_right_lng - bb.top_left_lng),
   bb.top_left_lat + norm_y * (bb.bottom_right_lat - bb.top_left_lat))

/-- `transform_coordinates` (georeference.py lines 50-106).  The
homography solvers `cv2.getPerspectiveTransform` (exactly 4 points) and
`cv2.findHomography` (more) are external numerical routines, passed as the
oracles `solve4` and `solveN`; a solver failure (OpenCV exception /
unusable matrix) propagates as `Except.error`, which `process_image`
turns into a fatal HTTP 500.  Only the first ring of each feature is
transformed and kept, as in the source.  With no bounding box and fewer
than 4 control points (`control_points and len(control_points) >= 4`
false) the features are returned unchanged. -/
def transform_coordinates
    (solve4 solveN : List GeoreferencePoint → Except String (Pt → Pt))
    (features : List (List (List Pt))) (img_width img_height : ℚ)
    (control_points : Option (List GeoreferencePoint))
    (bounding_box : Option BoundingBoxGeo) :
    Except String (List (List (List Pt))) :=
  match bounding_box with
  | some bb =>
    Except.ok (features.map (fun f =>
      match f with
      | [] => []
      | ring :: _ => [ring.map (bboxTransformPoint bb img_width img_height)]))
  | none =>
    match control_points with
    | some cps =>
      if 4 ≤ cps.length then
        match (if cps.length = 4 then solve4 cps else solveN cps) with
        | Except.error e => Except.error e
        | Except.ok tf =>
          Except.ok (features.map (fun f =>
            match f with
            | [] => []
            | ring :: _ => [ring.map tf]))
      else Except.ok features
    | none => Except.ok features

/-- The `georeferenced` metadata flag of `process_image`
(routers/process.py line 68): Python truthiness of
`bool(control_points or bounding_box)`. -/
def georeferenced_flag (control_points : Option (List GeoreferencePoint))
    (bounding_box : Option BoundingBoxGeo) : Bool :=
  (match control_points with
   | some l => !l.isEmpty
   | none => false) || bounding_box.isSome

/-- Orientation cross product of `a`, `b` around `o`. -/
def cross3 (o a b : Pt) : ℚ :=
  (a.1 - o.1) * (b.2 - o.2) - (a.2 - o.2) * (b.1 - o.1)

/-- `p` lies on the closed segment from `a` to `b`. -/
def onSeg (a b p : Pt) : Bool :=
  decide (cross3 a b p = 0) &&
    decide (min a.1 b.1 ≤ p.1) && decide (p.1 ≤ max a.1 b.1) &&
    decide (min a.2 b.2 ≤ p.2) && decide (p.2 ≤ max a.2 b.2)

/-- Closed segments `a`-`b` and `c`-`d` share at least one point
(standard orientation test plus collinear endpoint checks). -/
def segsIntersect (a b c d : Pt) : Bool :=
  let d1 := cross3 c d a
  let d2 := cross3 c d b
  let d3 := cross3 a b c
  let d4 := cross3 a b d
  (((decide (0 < d1) && decide (d2 < 0)) ||
    (decide (d1 < 0) && decide (0 < d2))) &&
   ((decide (0 < d3) && decide (d4 < 0)) ||
    (decide (d3 < 0) && decide (0 < d4)))) ||
  onSeg c d a || onSeg c d b || onSeg a b c || onSeg a b d

/-- Boundary edges of a ring; shapely's `Polygon` closes an open ring
automatically, rendered here by `closeRing`. -/
def ringEdges (ring : List Pt) : List (Pt × Pt) :=
  (closeRing ring).zip (closeRing ring).tail

/-- Even-odd ray-casting test: the horizontal ray to the right of `p`
crosses edge `e`. -/
def rayCrosses (p : Pt) (e : Pt × Pt) : Bool :=
  let a := e.1
  let b := e.2
  (decide (p.2 < a.2) != decide (p.2 < b.2)) &&
    decide (p.1 < a.1 + (p.2 - a.2) * (b.1 - a.1) / (b.2 - a.2))

/-- `p` is strictly inside the region bounded by `ring` (even-odd rule). -/
def pointInRing (ring : List Pt) (p : Pt) : Bool :=
  (ringEdges ring).countP (rayCrosses p) % 2 = 1

/-- `p` lies on the boundary traced by `ring`. -/
def pointOnRing (ring : List Pt) (p : Pt) : Bool :=
  (ringEdges ring).any (fun e => onSeg e.1 e.2 p)

/-- `p` belongs to the closed polygonal region of `ring`. -/
def pointInOrOn (ring : List Pt) (p : Pt) : Bool :=
  pointOnRing ring p || pointInRing ring p

/-- `shapely` `intersects`, modelled from its documented semantics: the
two closed polygonal regions share at least one point.  For simple rings
this holds exactly when some pair of boundary edges meets or one region's
vertex lies inside-or-on the other, which is the decidable criterion used
here.  (`buffer(0)` repair is the identity on the region of a valid ring;
repair of self-intersecting rings is not modelled.) -/
def ringsIntersect (r1 r2 : List Pt) : Bool :=
  (ringEdges r1).any (fun e1 => (ringEdges r2).any
    (fun e2 => segsIntersect e1.1 e1.2 e2.1 e2.2)) ||
  r1.any (fun v => pointInOrOn r2 v) ||
  r2.any (fun v => pointInOrOn r1 v)

/-- Loop body of `check_overlap` over the existing polygons (magic_wand.py
lines 323-334): entries that are empty or whose first ring is empty are
skipped; a 1- or 2-point ring makes `ShapelyPolygon` raise, the
surrounding `try/except` then returns `False` for the whole call. -/
def checkOverlapLoop (newRing : List Pt) :
    List (List (List Pt)) → Bool
  | [] => false
  | ex :: rest =>
    match ex with
    | [] => checkOverlapLoop newRing rest
    | ring :: _ =>
      if ring = [] then checkOverlapLoop newRing rest
      else if ring.length = 1 ∨ ring.length = 2 then false
      else if ringsIntersect newRing ring then true
      else checkOverlapLoop newRing rest

/-- `check_overlap` (magic_wand.py lines 301-337).  A 1- or 2-point
candidate ring makes `ShapelyPolygon` raise, and the `except` branch
returns `False`. -/
def check_overlap (new_polygon : List Pt)
    (existing_polygons : List (List (List Pt))) : Bool :=
  if existing_polygons = [] then false
  else if new_polygon.length = 1 ∨ new_polygon.length = 2 then false
  else checkOverlapLoop new_polygon existing_polygons

/-- The subset of the `/api/magic-wand` response relevant here
(schemas.py lines 57-65); the OCR text/confidence fields are produced by
the out-of-scope OCR collaborator and omitted. -/
structure MagicWandResponse where
  success : Bool
  polygon : Option (List (List Pt))
  centroid : Option Pt
  bbox : Option Bbox
  area : ℚ
  error : Option String
deriving Repr, DecidableEq

/-- Failure response `MagicWandResponse(success=False, error=...)`. -/
def failureResponse (e : String) : MagicWandResponse :=
  { success := false, polygon := none, centroid := none, bbox := none,
    area := 0, error := some e }

/-- The `/api/magic-wand` endpoint (routers/magic_wand.py lines 17-98)
after image decoding: run the selection, surface the
`selection_too_large` tag, vectorize through `refine_mask` (external
OpenCV morphology, oracle `refine`) and `mask_to_polygon`
(`cv2.findContours` oracle `contoursOf`, `cv2.approxPolyDP` oracle
`approx`), reject overlaps, and catch the out-of-bounds `ValueError` as a
structured `success=False` response. -/
def magic_wand_route (refine : List Pos → List Pos)
    (contoursOf : List Pos → List (List Pt))
    (approx : ℚ → List Pt → List Pt) (fill : List Pos) (w h : Int)
    (image : Pos → Color) (click_x click_y : Int)
    (use_boundary_mode : Bool) (boundary_color : Color)
    (boundary_tolerance tolerance : Int) (simplify_tolerance : ℚ)
    (existing_polygons : List (List (List Pt))) : MagicWandResponse :=
  match magic_wand_select fill w h image click_x click_y use_boundary_mode
      boundary_color boundary_tolerance tolerance with
  | Except.error e => failureResponse e
  | Except.ok res =>
    if res.error = some "selection_too_large" then
      failureResponse ("Selection too large - the boundary color may " ++
        "not be present in this area. Try adjusting the boundary color " ++
        "or tolerance.")
    else
      match mask_to_polygon approx (contoursOf (refine res.mask))
          simplify_tolerance with
      | none =>
        failureResponse ("No valid region selected. Try adjusting " ++
          "tolerance or clicking elsewhere.")
      | some poly =>
        match poly.polygon with
        | newRing :: _ =>
          if existing_polygons ≠ [] ∧
              check_overlap newRing existing_polygons then
            failureResponse ("This area overlaps with an existing " ++
              "selection. Please select a different area.")
          else
            { success := true, polygon := some poly.polygon,
              centroid := some poly.centroid, bbox := some res.bbox,
              area := poly.area, error := none }
        | [] =>
          { success := true, polygon := some poly.polygon,
            centroid := some poly.centroid, bbox := some res.bbox,
            area := poly.area, error := none }

/-- Modelled from the spec (§4.3): the signed shoelace area of a closed
ring, `area(ring)` of the ContourVectorizer contract. -/
def specRingArea (ring : List Pt) : ℚ :=
  ((ring.zip ring.tail).map (fun e => cross2 e.1 e.2)).sum / 2

/-- Modelled from the spec (§4.3): `centroid(ring)` of the
ContourVectorizer contract — the first-moment (signed-area-weighted)
centroid, falling back to the bounding-box center when the signed area is
exactly zero.  This definition follows the spec's words; claim C5
compares it against the source's `compute_centroid`. -/
def specCentroid (ring : List Pt) : Pt :=
  let A := specRingArea ring
  if A = 0 then
    let r := boundingRectQ ring
    (r.1 + r.2.2.1 / 2, r.2.1 + r.2.2.2 / 2)
  else
    (((ring.zip ring.tail).map
        (fun e => (e.1.1 + e.2.1) * cross2 e.1 e.2)).sum / (6 * A),
     ((ring.zip ring.tail).map
        (fun e => (e.1.2 + e.2.2) * cross2 e.1 e.2)).sum / (6 * A))

/-- A closed unit-radius axis-aligned square ring centered at `(cx, cy)`
(whose vertex mean, hence `compute_centroid`, is exactly `(cx, cy)`). -/
def sqAt (cx cy : ℚ) : List (List Pt) :=
  [[(cx - 1, cy - 1), (cx + 1, cy - 1), (cx + 1, cy + 1), (cx - 1, cy + 1),
    (cx - 1, cy - 1)]]

/-- The five example polygons of the spec, with centroids
`(5,20),(5,5),(20,5),(1,1),(30,30)` in input order. -/
def zonePolysExample : List (List (List Pt)) :=
  [sqAt 5 20, sqAt 5 5, sqAt 20 5, sqAt 1 1, sqAt 30 30]

/-- The square `(0,0)`-`(4,4)` traced with an extra collinear vertex
`(2,0)`: its area-weighted centroid is `(2, 2)` but its vertex mean is
`(2, 8/5)`. -/
def c5Ring : List Pt := [(0, 0), (2, 0), (4, 0), (4, 4), (0, 4), (0, 0)]

/-- The axis-aligned square `(0,0)`-`(10,10)` as a closed ring. -/
def c7Sq1 : List Pt := [(0, 0), (10, 0), (10, 10), (0, 10), (0, 0)]

/-- The axis-aligned square `(10,0)`-`(20,10)`: it touches `c7Sq1` along
the segment `x = 10` without sharing any area. -/
def c7Sq2 : List Pt := [(10, 0), (20, 0), (20, 10), (10, 10), (10, 0)]

/-- The axis-aligned square `(100,0)`-`(110,10)`, disjoint from `c7Sq1`. -/
def c7Far : List Pt := [(100, 0), (110, 0), (110, 10), (100, 10), (100, 0)]

/-- Modelled from the spec: two polygonal regions "share area" when a
whole open box around some point lies inside both — i.e. the intersection
has nonempty interior — as opposed to merely touching along a boundary
("any shared area, not just touching boundary"). -/
def sharesArea (r1 r2 : List Pt) : Prop :=
  ∃ a b eps : ℚ, 0 < eps ∧ ∀ x y : ℚ, |x - a| < eps → |y - b| < eps →
    pointInOrOn r1 (x, y) = true ∧ pointInOrOn r2 (x, y) = true

/-- The spec example image: 10x10 uniform gray `(152,152,152)` except a
4x4 white block at pixels `(2,2)`-`(5,5)`. -/
def c1Image : Pos → Color := fun p =>
  if 2 ≤ p.1 ∧ p.1 ≤ 5 ∧ 2 ≤ p.2 ∧ p.2 ≤ 5 then (255, 255, 255)
  else (152, 152, 152)

/-- The selection result of the spec example, in BFS pop order. -/
def c1Result : SelectResult :=
  { mask := [(5, 5), (4, 5), (5, 4), (5, 2), (2, 5), (3, 5), (4, 4),
             (4, 2), (5, 3), (2, 4), (2, 2), (3, 4), (3, 2), (4, 3),
             (2, 3), (3, 3)]
    bbox := { x := 2, y := 2, width := 4, height := 4 }
    error := none }

/-- An all-white test image (no boundary-color pixel anywhere). -/
def whiteImage : Pos → Color := fun _ => (255, 255, 255)

/-- An all-gray test image (every pixel is the boundary color). -/
def grayImage : Pos → Color := fun _ => (152, 152, 152)

lemma processNeighbor_spec (w h : Int) (bdy : Pos → Bool) (p : Pos)
    (acc : List Pos × List Pos) (d : Pos) :
    (¬ inBounds w h (p.1 + d.1, p.2 + d.2) = true ∧
      processNeighbor w h bdy p acc d = acc) ∨
    (inBounds w h (p.1 + d.1, p.2 + d.2) = true ∧
      (p.1 + d.1, p.2 + d.2) ∈ acc.1 ∧
      processNeighbor w h bdy p acc d = acc) ∨
    (inBounds w h (p.1 + d.1, p.2 + d.2) = true ∧
      (p.1 + d.1, p.2 + d.2) ∉ acc.1 ∧ bdy (p.1 + d.1, p.2 + d.2) = true ∧
      processNeighbor w h bdy p acc d =
        ((p.1 + d.1, p.2 + d.2) :: acc.1, acc.2)) ∨
    (inBounds w h (p.1 + d.1, p.2 + d.2) = true ∧
      (p.1 + d.1, p.2 + d.2) ∉ acc.1 ∧ bdy (p.1 + d.1, p.2 + d.2) = false ∧
      processNeighbor w h bdy p acc d =
        ((p.1 + d.1, p.2 + d.2) :: acc.1, acc.2 ++ [(p.1 + d.1, p.2 + d.2)])) := by
  unfold processNeighbor
  by_cases h1 : inBounds w h (p.1 + d.1, p.2 + d.2) = true
  · by_cases h2 : (p.1 + d.1, p.2 + d.2) ∈ acc.1
    · exact Or.inr (Or.inl ⟨h1, h2, by simp [h1, h2]⟩)
    · by_cases h3 : bdy (p.1 + d.1, p.2 + d.2) = true
      · exact Or.inr (Or.inr (Or.inl ⟨h1, h2, h3, by simp [h1, h2, h3]⟩))
      · refine Or.inr (Or.inr (Or.inr ⟨h1, h2, by simpa using h3, ?_⟩))
        simp [h1, h2, h3]
  · exact Or.inl ⟨h1, by simp [h1]⟩

lemma foldNbrs_visited_mono (w h : Int) (bdy : Pos → Bool) (p : Pos) :
    ∀ (D : List Pos) (acc : List Pos × List Pos),
      acc.1 ⊆ (D.foldl (processNeighbor w h bdy p) acc).1 := by
  intro D
  induction D with
  | nil => exact fun acc a ha => ha
  | cons d D ih =>
    intro acc
    intro a ha
    rw [List.foldl_cons]
    refine ih _ ?_
    rcases processNeighbor_spec w h bdy p acc d with ⟨_, he⟩ | ⟨_, _, he⟩ |
      ⟨_, _, _, he⟩ | ⟨_, _, _, he⟩ <;> rw [he]
    · exact ha
    · exact ha
    · exact List.mem_cons_of_mem _ ha
    · exact List.mem_cons_of_mem _ ha

lemma foldNbrs_queue_mono (w h : Int) (bdy : Pos → Bool) (p : Pos) :
    ∀ (D : List Pos) (acc : List Pos × List Pos),
      acc.2 ⊆ (D.foldl (processNeighbor w h bdy p) acc).2 := by
  intro D
  induction D with
  | nil => exact fun acc a ha => ha
  | cons d D ih =>
    intro acc a ha
    rw [List.foldl_cons]
    refine ih _ ?_
    rcases processNeighbor_spec w h bdy p acc d with ⟨_, he⟩ | ⟨_, _, he⟩ |
      ⟨_, _, _, he⟩ | ⟨_, _, _, he⟩ <;> rw [he]
    · exact ha
    · exact ha
    · exact ha
    · exact List.mem_append_left _ ha

lemma foldNbrs_nodup (w h : Int) (bdy : Pos → Bool) (p : Pos) :
    ∀ (D : List Pos) (acc : List Pos × List Pos), acc.1.Nodup →
      (D.foldl (processNeighbor w h bdy p) acc).1.Nodup := by
  intro D
  induction D with
  | nil => exact fun acc hn => hn
  | cons d D ih =>
    intro acc hn
    rw [List.foldl_cons]
    rcases processNeighbor_spec w h bdy p acc d with ⟨_, he⟩ | ⟨_, _, he⟩ |
      ⟨_, hm, _, he⟩ | ⟨_, hm, _, he⟩ <;> rw [he]
    · exact ih _ hn
    · exact ih _ hn
    · exact ih _ (List.nodup_cons.2 ⟨hm, hn⟩)
    · exact ih _ (List.nodup_cons.2 ⟨hm, hn⟩)

lemma foldNbrs_queue_vis (w h : Int) (bdy : Pos → Bool) (p : Pos) :
    ∀ (D : List Pos) (acc : List Pos × List Pos),
      (∀ x ∈ acc.2, x ∈ acc.1) →
      ∀ x ∈ (D.foldl (processNeighbor w h bdy p) acc).2,
        x ∈ (D.foldl (processNeighbor w h bdy p) acc).1 := by
  intro D
  induction D with
  | nil => exact fun acc hq => hq
  | cons d D ih =>
    intro acc hq
    rw [List.foldl_cons]
    rcases processNeighbor_spec w h bdy p acc d with ⟨_, he⟩ | ⟨_, _, he⟩ |
      ⟨_, _, _, he⟩ | ⟨_, _, _, he⟩ <;> rw [he]
    · exact ih _ hq
    · exact ih _ hq
    · exact ih _ fun x hx => List.mem_cons_of_mem _ (hq x hx)
    · refine ih _ fun x hx => ?_
      rcases List.mem_append.1 hx with hx | hx
      · exact List.mem_cons_of_mem _ (hq x hx)
      · simp only [List.mem_singleton] at hx
        exact hx ▸ List.mem_cons_self _ _

lemma foldNbrs_vis_char (w h : Int) (bdy : Pos → Bool) (p : Pos) :
    ∀ (D : List Pos) (acc : List Pos × List Pos),
      ∀ n ∈ (D.foldl (processNeighbor w h bdy p) acc).1,
        n ∈ acc.1 ∨
        (inBounds w h n = true ∧ (∃ d ∈ D, n = (p.1 + d.1, p.2 + d.2)) ∧
          (bdy n = true ∨ n ∈ (D.foldl (processNeighbor w h bdy p) acc).2)) := by
  intro D
  induction D with
  | nil => exact fun acc n hn => Or.inl hn
  | cons d D ih =>
    intro acc n hn
    rw [List.foldl_cons] at hn ⊢
    rcases processNeighbor_spec w h bdy p acc d with ⟨_, he⟩ | ⟨_, _, he⟩ |
      ⟨hb, _, hbd, he⟩ | ⟨hb, _, hbd, he⟩
    · rw [he] at hn ⊢
      rcases ih acc n hn with hc | ⟨h1, ⟨e, he2, he3⟩, h3⟩
      · exact Or.inl hc
      · exact Or.inr ⟨h1, ⟨e, List.mem_cons_of_mem _ he2, he3⟩, h3⟩
    · rw [he] at hn ⊢
      rcases ih acc n hn with hc | ⟨h1, ⟨e, he2, he3⟩, h3⟩
      · exact Or.inl hc
      · exact Or.inr ⟨h1, ⟨e, List.mem_cons_of_mem _ he2, he3⟩, h3⟩
    · rw [he] at hn ⊢
      rcases ih _ n hn with hc | ⟨h1, ⟨e, he2, he3⟩, h3⟩
      · rcases List.mem_cons.1 hc with hc | hc
        · exact Or.inr ⟨hc ▸ hb, ⟨d, List.mem_cons_self _ _, hc⟩,
            Or.inl (hc ▸ hbd)⟩
        · exact Or.inl hc
      · exact Or.inr ⟨h1, ⟨e, List.mem_cons_of_mem _ he2, he3⟩, h3⟩
    · rw [he] at hn ⊢
      rcases ih _ n hn with hc | ⟨h1, ⟨e, he2, he3⟩, h3⟩
      · rcases List.mem_cons.1 hc with hc | hc
        · refine Or.inr ⟨hc ▸ hb, ⟨d, List.mem_cons_self _ _, hc⟩, Or.inr ?_⟩
          refine foldNbrs_queue_mono w h bdy p D _ ?_
          simp [hc]
        · exact Or.inl hc
      · exact Or.inr ⟨h1, ⟨e, List.mem_cons_of_mem _ he2, he3⟩, h3⟩

lemma foldNbrs_queue_char (w h : Int) (bdy : Pos → Bool) (p : Pos) :
    ∀ (D : List Pos) (acc : List Pos × List Pos),
      ∀ x ∈ (D.foldl (processNeighbor w h bdy p) acc).2,
        x ∈ acc.2 ∨
        (inBounds w h x = true ∧ bdy x = false ∧
          ∃ d ∈ D, x = (p.1 + d.1, p.2 + d.2)) := by
  intro D
  induction D with
  | nil => exact fun acc x hx => Or.inl hx
  | cons d D ih =>
    intro acc x hx
    rw [List.foldl_cons] at hx
    rcases processNeighbor_spec w h bdy p acc d with ⟨_, he⟩ | ⟨_, _, he⟩ |
      ⟨_, _, _, he⟩ | ⟨hb, _, hbd, he⟩
    · rw [he] at hx
      rcases ih acc x hx with hc | ⟨h1, h2, e, he2, he3⟩
      · exact Or.inl hc
      · exact Or.inr ⟨h1, h2, e, List.mem_cons_of_mem _ he2, he3⟩
    · rw [he] at hx
      rcases ih acc x hx with hc | ⟨h1, h2, e, he2, he3⟩
      · exact Or.inl hc
      · exact Or.inr ⟨h1, h2, e, List.mem_cons_of_mem _ he2, he3⟩
    · rw [he] at hx
      rcases ih _ x hx with hc | ⟨h1, h2, e, he2, he3⟩
      · exact Or.inl hc
      · exact Or.inr ⟨h1, h2, e, List.mem_cons_of_mem _ he2, he3⟩
    · rw [he] at hx
      rcases ih _ x hx with hc | ⟨h1, h2, e, he2, he3⟩
      · rcases List.mem_append.1 hc with hc | hc
        · exact Or.inl hc
        · simp only [List.mem_singleton] at hc
          exact Or.inr ⟨hc ▸ hb, hc ▸ hbd, d, List.mem_cons_self _ _, hc⟩
      · exact Or.inr ⟨h1, h2, e, List.mem_cons_of_mem _ he2, he3⟩

lemma foldNbrs_cover (w h : Int) (bdy : Pos → Bool) (p : Pos) :
    ∀ (D : List Pos) (acc : List Pos × List Pos),
      ∀ d ∈ D, inBounds w h (p.1 + d.1, p.2 + d.2) = true →
        (p.1 + d.1, p.2 + d.2) ∈ (D.foldl (processNeighbor w h bdy p) acc).1 := by
  intro D
  induction D with
  | nil => intro acc d hd; exact absurd hd (List.not_mem_nil d)
  | cons e D ih =>
    intro acc d hd hdin
    rw [List.foldl_cons]
    rcases List.mem_cons.1 hd with hd | hd
    · subst hd
      rcases processNeighbor_spec w h bdy p acc d with ⟨hb, _⟩ | ⟨_, hm, he⟩ |
        ⟨_, _, _, he⟩ | ⟨_, _, _, he⟩
      · exact absurd hdin hb
      · rw [he]
        exact foldNbrs_visited_mono w h bdy p D _ hm
      · rw [he]
        exact foldNbrs_visited_mono w h bdy p D _ (List.mem_cons_self _ _)
      · rw [he]
        exact foldNbrs_visited_mono w h bdy p D _ (List.mem_cons_self _ _)
    · exact ih _ d hd hdin

lemma foldNbrs_len (w h : Int) (bdy : Pos → Bool) (p : Pos) :
    ∀ (D : List Pos) (acc : List Pos × List Pos),
      (D.foldl (processNeighbor w h bdy p) acc).2.length + acc.1.length ≤
        (D.foldl (processNeighbor w h bdy p) acc).1.length + acc.2.length := by
  intro D
  induction D with
  | nil =>
    intro acc
    rw [List.foldl_nil]
    omega
  | cons d D ih =>
    intro acc
    rw [List.foldl_cons]
    rcases processNeighbor_spec w h bdy p acc d with ⟨_, he⟩ | ⟨_, _, he⟩ |
      ⟨_, _, _, he⟩ | ⟨_, _, _, he⟩ <;> rw [he]
    · exact ih acc
    · exact ih acc
    · have := ih ((p.1 + d.1, p.2 + d.2) :: acc.1, acc.2)
      simp only [List.length_cons] at this ⊢
      omega
    · have := ih ((p.1 + d.1, p.2 + d.2) :: acc.1,
        acc.2 ++ [(p.1 + d.1, p.2 + d.2)])
      simp only [List.length_cons, List.length_append, List.length_nil,
        List.length_singleton] at this ⊢
      omega

lemma foldNbrs_len_mono (w h : Int) (bdy : Pos → Bool) (p : Pos) :
    ∀ (D : List Pos) (acc : List Pos × List Pos),
      acc.1.length ≤ (D.foldl (processNeighbor w h bdy p) acc).1.length := by
  intro D
  induction D with
  | nil => exact fun acc => le_refl _
  | cons d D ih =>
    intro acc
    rw [List.foldl_cons]
    rcases processNeighbor_spec w h bdy p acc d with ⟨_, he⟩ | ⟨_, _, he⟩ |
      ⟨_, _, _, he⟩ | ⟨_, _, _, he⟩ <;> rw [he]
    · exact ih acc
    · exact ih acc
    · exact le_trans (by simp) (ih ((p.1 + d.1, p.2 + d.2) :: acc.1, acc.2))
    · exact le_trans (by simp) (ih ((p.1 + d.1, p.2 + d.2) :: acc.1,
        acc.2 ++ [(p.1 + d.1, p.2 + d.2)]))

lemma bfsRun_succ_cons (w h : Int) (bdy : Pos → Bool) (fuel : Nat)
    (s : FillState) (p : Pos) (rest : List Pos) (hq : s.queue = p :: rest) :
    bfsRun w h bdy (fuel + 1) s =
      bfsRun w h bdy fuel (popState w h bdy p rest s) := by
  conv_lhs => rw [bfsRun]
  rw [hq]
  rfl

lemma bfsRun_succ_nil (w h : Int) (bdy : Pos → Bool) (fuel : Nat)
    (s : FillState) (hq : s.queue = []) :
    bfsRun w h bdy (fuel + 1) s = s := by
  conv_lhs => rw [bfsRun]
  rw [hq]

lemma inv_popState (w h : Int) (bdy : Pos → Bool) (seed p : Pos)
    (rest : List Pos) (s : FillState) (hinv : Inv w h bdy seed s)
    (hq : s.queue = p :: rest) :
    Inv w h bdy seed (popState w h bdy p rest s) := by
  have hpq : p ∈ s.queue := hq ▸ List.mem_cons_self _ _
  have hrest : ∀ x ∈ rest, x ∈ s.queue :=
    fun x hx => hq ▸ List.mem_cons_of_mem _ hx
  have hpreach : Reaches w h bdy seed p := hinv.reach_queue p hpq
  refine ⟨?_, ?_, ?_, ?_, ?_, ?_, ?_, ?_, ?_, ?_⟩
  · exact foldNbrs_nodup w h bdy p dirs _ hinv.vis_nodup
  · intro q hqv
    rcases foldNbrs_vis_char w h bdy p dirs _ q hqv with hc | ⟨h1, _, _⟩
    · exact hinv.vis_inb q hc
    · exact h1
  · exact foldNbrs_visited_mono w h bdy p dirs _ hinv.seed_vis
  · exact foldNbrs_queue_vis w h bdy p dirs _
      (fun x hx => hinv.queue_vis x (hrest x hx))
  · intro q hqq
    rcases foldNbrs_queue_char w h bdy p dirs _ q hqq with hc | ⟨_, h2, _⟩
    · exact hinv.queue_nb q (hrest q hc)
    · exact h2
  · intro q hqm
    rcases List.mem_cons.1 hqm with hc | hc
    · exact hc ▸ hinv.queue_nb p hpq
    · exact hinv.mask_nb q hc
  · intro q hqm
    rcases List.mem_cons.1 hqm with hc | hc
    · exact hc ▸ hpreach
    · exact hinv.reach_mask q hc
  · intro q hqq
    rcases foldNbrs_queue_char w h bdy p dirs _ q hqq with hc | ⟨h1, h2, hd⟩
    · exact hinv.reach_queue q (hrest q hc)
    · exact Relation.ReflTransGen.tail hpreach ⟨hd, h1, h2⟩
  · intro q hqv
    rcases foldNbrs_vis_char w h bdy p dirs _ q hqv with hc | ⟨_, _, h3⟩
    · rcases hinv.vis_cases q hc with hm | hqu | hb
      · exact Or.inl (List.mem_cons_of_mem _ hm)
      · rw [hq] at hqu
        rcases List.mem_cons.1 hqu with hqu | hqu
        · exact Or.inl (hqu ▸ List.mem_cons_self _ _)
        · exact Or.inr (Or.inl (foldNbrs_queue_mono w h bdy p dirs _ hqu))
      · exact Or.inr (Or.inr hb)
    · rcases h3 with hb | hqu
      · exact Or.inr (Or.inr hb)
      · exact Or.inr (Or.inl hqu)
  · intro q hqm d hd hdin
    rcases List.mem_cons.1 hqm with hc | hc
    · subst hc
      exact foldNbrs_cover w h bdy q dirs _ d hd hdin
    · exact foldNbrs_visited_mono w h bdy p dirs _
        (hinv.mask_closed q hc d hd hdin)

lemma inv_bfsRun (w h : Int) (bdy : Pos → Bool) (seed : Pos) :
    ∀ (fuel : Nat) (s : FillState), Inv w h bdy seed s →
      Inv w h bdy seed (bfsRun w h bdy fuel s) := by
  intro fuel
  induction fuel with
  | zero => exact fun s hinv => hinv
  | succ fuel ih =>
    intro s hinv
    match hq : s.queue with
    | [] =>
      rw [bfsRun_succ_nil w h bdy fuel s hq]
      exact hinv
    | p :: rest =>
      rw [bfsRun_succ_cons w h bdy fuel s p rest hq]
      exact ih _ (inv_popState w h bdy seed p rest s hinv hq)

lemma mem_inbFinset (w h : Int) (p : Pos) :
    p ∈ inbFinset w h ↔ inBounds w h p = true := by
  unfold inbFinset inBounds
  rcases p with ⟨x, y⟩
  simp only [Finset.mem_product, Finset.mem_Icc]
  simp only [Bool.and_eq_true, decide_eq_true_eq]
  omega

lemma card_inbFinset (w h : Int) (hw : 0 ≤ w) (hh : 0 ≤ h) :
    (inbFinset w h).card = (w * h).toNat := by
  unfold inbFinset
  rw [Finset.card_product, Int.card_Icc, Int.card_Icc]
  have h1 : ((w * h).toNat : Int) = w * h := Int.toNat_of_nonneg
    (mul_nonneg hw hh)
  have h2 : ((w - 1 + 1 - 0).toNat : Int) = w := by omega
  have h3 : ((h - 1 + 1 - 0).toNat : Int) = h := by omega
  have : (((w - 1 + 1 - 0).toNat * (h - 1 + 1 - 0).toNat : Nat) : Int) =
      (((w * h).toNat : Nat) : Int) := by
    push_cast
    rw [h1, h2, h3]
  exact_mod_cast this

lemma visited_len_le (w h : Int) (hw : 0 ≤ w) (hh : 0 ≤ h) (l : List Pos)
    (hnd : l.Nodup) (hinb : ∀ p ∈ l, inBounds w h p = true) :
    l.length ≤ (w * h).toNat := by
  have hsub : l.toFinset ⊆ inbFinset w h := by
    intro p hp
    rw [mem_inbFinset]
    exact hinb p (List.mem_toFinset.1 hp)
  have := Finset.card_le_card hsub
  rw [List.toFinset_card_of_nodup hnd] at this
  rw [card_inbFinset w h hw hh] at this
  exact this

/-- With fuel at least `(w*h).toNat - visited + queue`, the BFS drains its
queue completely, so the fuelled recursion models the source loop. -/
lemma bfsFuelSufficient (w h : Int) (bdy : Pos → Bool) (seed : Pos)
    (hw : 0 ≤ w) (hh : 0 ≤ h) :
    ∀ (fuel : Nat) (s : FillState), Inv w h bdy seed s →
      (w * h).toNat - s.visited.length + s.queue.length ≤ fuel →
      (bfsRun w h bdy fuel s).queue = [] := by
  intro fuel
  induction fuel with
  | zero =>
    intro s hinv hm
    have hv := visited_len_le w h hw hh s.visited hinv.vis_nodup hinv.vis_inb
    have : s.queue.length = 0 := by omega
    exact List.length_eq_zero.1 this
  | succ fuel ih =>
    intro s hinv hm
    match hq : s.queue with
    | [] =>
      rw [bfsRun_succ_nil w h bdy fuel s hq]
      exact hq
    | p :: rest =>
      rw [bfsRun_succ_cons w h bdy fuel s p rest hq]
      refine ih _ (inv_popState w h bdy seed p rest s hinv hq) ?_
      have hlen : (dirs.foldl (processNeighbor w h bdy p)
            (s.visited, rest)).2.length + s.visited.length ≤
          (dirs.foldl (processNeighbor w h bdy p)
            (s.visited, rest)).1.length + rest.length :=
        foldNbrs_len w h bdy p dirs (s.visited, rest)
      have hlenm : s.visited.length ≤ (dirs.foldl (processNeighbor w h bdy p)
          (s.visited, rest)).1.length :=
        foldNbrs_len_mono w h bdy p dirs (s.visited, rest)
      have hnd := foldNbrs_nodup w h bdy p dirs (s.visited, rest)
        hinv.vis_nodup
      have hin : ∀ q ∈ (dirs.foldl (processNeighbor w h bdy p)
          (s.visited, rest)).1, inBounds w h q = true := by
        intro q hqv
        rcases foldNbrs_vis_char w h bdy p dirs _ q hqv with hc | ⟨h1, _, _⟩
        · exact hinv.vis_inb q hc
        · exact h1
      have hv2 := visited_len_le w h hw hh _ hnd hin
      have hql : s.queue.length = rest.length + 1 := by
        rw [hq]
        simp
      show (w * h).toNat -
          (dirs.foldl (processNeighbor w h bdy p)
            (s.visited, rest)).1.length +
          (dirs.foldl (processNeighbor w h bdy p)
            (s.visited, rest)).2.length ≤ fuel
      omega

/-- At a drained-queue state satisfying the invariant, the mask is exactly
the set of pixels reachable from the seed (when the seed is in bounds and
not boundary). -/
lemma mask_eq_reach (w h : Int) (bdy : Pos → Bool) (seed : Pos)
    (s : FillState) (hinv : Inv w h bdy seed s) (hq : s.queue = [])
    (hnb : bdy seed = false) :
    ∀ p : Pos, p ∈ s.mask ↔ Reaches w h bdy seed p := by
  have hseed : seed ∈ s.mask := by
    rcases hinv.vis_cases seed hinv.seed_vis with hm | hqu | hb
    · exact hm
    · rw [hq] at hqu
      exact absurd hqu (List.not_mem_nil seed)
    · rw [hnb] at hb
      exact absurd hb (by simp)
  intro p
  constructor
  · exact hinv.reach_mask p
  · intro hr
    induction hr with
    | refl => exact hseed
    | tail hr1 hstep ih =>
      rename_i b c
      rcases hstep with ⟨⟨d, hd, hc⟩, hcin, hcnb⟩
      have hbv : c ∈ s.visited := by
        subst hc
        exact hinv.mask_closed b ih d hd hcin
      rcases hinv.vis_cases c hbv with hm | hqu | hb
      · exact hm
      · rw [hq] at hqu
        exact absurd hqu (List.not_mem_nil c)
      · rw [hcnb] at hb
        exact absurd hb (by simp)

lemma inv_init (w h : Int) (bdy : Pos → Bool) (sx sy : Int)
    (hin : inBounds w h (sx, sy) = true) (hnb : bdy (sx, sy) = false) :
    Inv w h bdy (sx, sy) (initState sx sy) := by
  refine ⟨?_, ?_, ?_, ?_, ?_, ?_, ?_, ?_, ?_, ?_⟩
  · simp [initState]
  · intro p hp
    simp only [initState, List.mem_singleton] at hp
    exact hp ▸ hin
  · simp [initState]
  · intro p hp
    simp only [initState, List.mem_singleton] at hp
    simp [initState, hp]
  · intro p hp
    simp only [initState, List.mem_singleton] at hp
    exact hp ▸ hnb
  · intro p hp
    exact absurd hp (List.not_mem_nil p)
  · intro p hp
    exact absurd hp (List.not_mem_nil p)
  · intro p hp
    simp only [initState, List.mem_singleton] at hp
    exact hp ▸ Relation.ReflTransGen.refl
  · intro p hp
    simp only [initState, List.mem_singleton] at hp
    exact Or.inr (Or.inl (by simp [initState, hp]))
  · intro p hp
    exact absurd hp (List.not_mem_nil p)

lemma inBounds_pos (w h : Int) (p : Pos) (hin : inBounds w h p = true) :
    0 < w ∧ 0 < h := by
  unfold inBounds at hin
  simp only [Bool.and_eq_true, decide_eq_true_eq] at hin
  omega

/-- The final state of the flood fill of `magic_wand_select_boundary`:
its mask is exactly the set of pixels reachable from the seed. -/
lemma final_mask_reach (w h : Int) (bdy : Pos → Bool) (sx sy : Int)
    (hin : inBounds w h (sx, sy) = true) (hnb : bdy (sx, sy) = false) :
    ∀ p : Pos,
      p ∈ (bfsRun w h bdy (w * h).toNat (initState sx sy)).mask ↔
        Reaches w h bdy (sx, sy) p := by
  obtain ⟨hw, hh⟩ := inBounds_pos w h _ hin
  have hinit := inv_init w h bdy sx sy hin hnb
  have hwh : 0 < w * h := mul_pos hw hh
  have hme : (w * h).toNat - (initState sx sy).visited.length +
      (initState sx sy).queue.length ≤ (w * h).toNat := by
    simp only [initState, List.length_singleton]
    omega
  have hq := bfsFuelSufficient w h bdy (sx, sy) (le_of_lt hw) (le_of_lt hh)
    (w * h).toNat (initState sx sy) hinit hme
  have hInvF := inv_bfsRun w h bdy (sx, sy) (w * h).toNat _ hinit
  exact mask_eq_reach w h bdy (sx, sy) _ hInvF hq hnb

/-- In the successful, non-sentinel branch the returned mask is the final
BFS mask. -/
lemma select_ok_mask (w h : Int) (image : Pos → Color) (bc : Color)
    (tol sx sy : Int) (res : SelectResult)
    (hin : inBounds w h (sx, sy) = true)
    (hnb : isBoundaryPix image bc tol (sx, sy) = false)
    (hres : magic_wand_select_boundary w h image sx sy bc tol =
      Except.ok res)
    (hne : res.mask ≠ []) :
    res.mask = (bfsRun w h (isBoundaryPix image bc tol) (w * h).toNat
      (initState sx sy)).mask := by
  unfold magic_wand_select_boundary at hres
  simp only [hin, hnb, if_true, Bool.false_eq_true, if_false] at hres
  split at hres
  · injection hres with hres
    rw [← hres] at hne
    exact absurd rfl hne
  · injection hres with hres
    rw [← hres]

/-- C2: for every image, every in-bounds seed not classified boundary, and
every non-empty boundary-mode selection result, the mask contains the seed,
contains no boundary-classified pixel, is 4-connected through the seed
within itself, and is closed under 4-connected steps to in-bounds
non-boundary pixels (hence is exactly one 4-connected component). -/
theorem C2_boundary_mask_invariants (w h : Int) (image : Pos → Color)
    (bc : Color) (tol sx sy : Int) (res : SelectResult)
    (hin : inBounds w h (sx, sy) = true)
    (hnb : isBoundaryPix image bc tol (sx, sy) = false)
    (hres : magic_wand_select_boundary w h image sx sy bc tol =
      Except.ok res)
    (hne : res.mask ≠ []) :
    (sx, sy) ∈ res.mask ∧
    (∀ p ∈ res.mask, isBoundaryPix image bc tol p = false) ∧
    (∀ p ∈ res.mask,
      Relation.ReflTransGen
        (fun a b => (∃ d ∈ dirs, b = (a.1 + d.1, a.2 + d.2)) ∧ b ∈ res.mask)
        (sx, sy) p) ∧
    (∀ p ∈ res.mask, ∀ d ∈ dirs,
      inBounds w h (p.1 + d.1, p.2 + d.2) = true →
      isBoundaryPix image bc tol (p.1 + d.1, p.2 + d.2) = false →
      (p.1 + d.1, p.2 + d.2) ∈ res.mask) := by
  have hmask := select_ok_mask w h image bc tol sx sy res hin hnb hres hne
  have hchar := final_mask_reach w h (isBoundaryPix image bc tol) sx sy
    hin hnb
  have hmem : ∀ p : Pos, p ∈ res.mask ↔
      Reaches w h (isBoundaryPix image bc tol) (sx, sy) p := by
    intro p
    rw [hmask]
    exact hchar p
  refine ⟨?_, ?_, ?_, ?_⟩
  · exact (hmem (sx, sy)).2 Relation.ReflTransGen.refl
  · intro p hp
    have hr := (hmem p).1 hp
    induction hr with
    | refl => exact hnb
    | tail _ h2 _ => exact h2.2.2
  · intro p hp
    have hr := (hmem p).1 hp
    clear hp
    induction hr with
    | refl => exact Relation.ReflTransGen.refl
    | tail h1 h2 ih =>
      rename_i b c
      exact Relation.ReflTransGen.tail ih
        ⟨h2.1, (hmem c).2 (h1.tail h2)⟩
  · intro p hp d hd hdin hdnb
    have hr := (hmem p).1 hp
    exact (hmem _).2 (hr.tail ⟨⟨d, hd, rfl⟩, hdin, hdnb⟩)

/-- C1: for the 10x10 image that is uniform gray (152,152,152) everywhere
except a 4x4 white block at pixels (2,2)-(5,5), boundary-mode selection
with seed (3,3), boundary color (152,152,152) and tolerance 15 returns a
mask whose set pixels are exactly the block (2,2)-(5,5) and the bounding
box {x:2, y:2, width:4, height:4}. -/
theorem C1_boundary_example :
    magic_wand_select_boundary 10 10 c1Image 3 3 (152, 152, 152) 15 =
      Except.ok c1Result ∧
    (∀ p : Pos, p ∈ c1Result.mask ↔
      2 ≤ p.1 ∧ p.1 ≤ 5 ∧ 2 ≤ p.2 ∧ p.2 ≤ 5) ∧
    c1Result.bbox = { x := 2, y := 2, width := 4, height := 4 } := by
  refine ⟨rfl, ?_, rfl⟩
  intro p
  constructor
  · intro hp
    have hall : ∀ q ∈ c1Result.mask,
        2 ≤ q.1 ∧ q.1 ≤ 5 ∧ 2 ≤ q.2 ∧ q.2 ≤ 5 := by decide
    exact hall p hp
  · obtain ⟨x, y⟩ := p
    intro hb
    have hx : x = 2 ∨ x = 3 ∨ x = 4 ∨ x = 5 := by omega
    have hy : y = 2 ∨ y = 3 ∨ y = 4 ∨ y = 5 := by omega
    rcases hx with rfl | rfl | rfl | rfl <;>
      rcases hy with rfl | rfl | rfl | rfl <;> decide

lemma select_seed_boundary (w h : Int) (image : Pos → Color) (bc : Color)
    (tol sx sy : Int) (hin : inBounds w h (sx, sy) = true)
    (hb : isBoundaryPix image bc tol (sx, sy) = true) :
    magic_wand_select_boundary w h image sx sy bc tol =
      Except.ok { mask := [], bbox := zeroBbox, error := none } := by
  unfold magic_wand_select_boundary
  simp only [hin, hb, if_true]

lemma select_too_large (w h : Int) (image : Pos → Color) (bc : Color)
    (tol sx sy : Int) (hin : inBounds w h (sx, sy) = true)
    (hnb : isBoundaryPix image bc tol (sx, sy) = false)
    (hbig : 5 * (bfsRun w h (isBoundaryPix image bc tol) (w * h).toNat
        (initState sx sy)).mask.dedup.length > 4 * (w * h).toNat) :
    magic_wand_select_boundary w h image sx sy bc tol =
      Except.ok { mask := [], bbox := zeroBbox,
                  error := some "selection_too_large" } := by
  unfold magic_wand_select_boundary
  simp only [hin, hnb, if_true, Bool.false_eq_true, if_false]
  rw [if_pos hbig]

/-- C3: in boundary mode, whenever the flood fill selects more than 80%
of the image's pixels the selection is discarded and the all-zero mask and
bbox are returned tagged `selection_too_large`; the empty result for a
seed on the boundary color carries no tag, and the two sentinel results
are distinct, so a caller can discriminate them. -/
theorem C3_selection_too_large (w h : Int) (image : Pos → Color)
    (bc : Color) (tol sx sy : Int)
    (hin : inBounds w h (sx, sy) = true)
    (hnb : isBoundaryPix image bc tol (sx, sy) = false)
    (hbig : 5 * (bfsRun w h (isBoundaryPix image bc tol) (w * h).toNat
        (initState sx sy)).mask.dedup.length > 4 * (w * h).toNat) :
    magic_wand_select_boundary w h image sx sy bc tol =
      Except.ok { mask := [], bbox := zeroBbox,
                  error := some "selection_too_large" } ∧
    (∀ (w2 h2 : Int) (image2 : Pos → Color) (bc2 : Color)
      (tol2 sx2 sy2 : Int),
      inBounds w2 h2 (sx2, sy2) = true →
      isBoundaryPix image2 bc2 tol2 (sx2, sy2) = true →
      magic_wand_select_boundary w2 h2 image2 sx2 sy2 bc2 tol2 =
        Except.ok { mask := [], bbox := zeroBbox, error := none }) ∧
    ({ mask := [], bbox := zeroBbox, error := some "selection_too_large" } :
      SelectResult) ≠ { mask := [], bbox := zeroBbox, error := none } :=
  ⟨select_too_large w h image bc tol sx sy hin hnb hbig,
   fun w2 h2 image2 bc2 tol2 sx2 sy2 hin2 hb2 =>
     select_seed_boundary w2 h2 image2 bc2 tol2 sx2 sy2 hin2 hb2,
   by decide⟩

/-- Witness for C3: a 2x2 all-white image with gray boundary color fills
all 4 pixels (100% > 80%), which yields the tagged sentinel. -/
theorem C3_selection_too_large_witness :
    inBounds 2 2 ((0 : Int), (0 : Int)) = true ∧
    isBoundaryPix whiteImage (152, 152, 152) 15 (0, 0) = false ∧
    5 * (bfsRun 2 2 (isBoundaryPix whiteImage (152, 152, 152) 15)
        ((2 * 2 : Int)).toNat (initState 0 0)).mask.dedup.length >
      4 * ((2 * 2 : Int)).toNat ∧
    magic_wand_select_boundary 2 2 whiteImage 0 0 (152, 152, 152) 15 =
      Except.ok { mask := [], bbox := zeroBbox,
                  error := some "selection_too_large" } :=
  ⟨by decide, by decide, by decide,
    (C3_selection_too_large 2 2 whiteImage (152, 152, 152) 15 0 0
      (by decide) (by decide) (by decide)).1⟩

/-- Witness for C2: the spec example selection contains its seed. -/
theorem C2_boundary_mask_invariants_witness :
    inBounds 10 10 ((3 : Int), (3 : Int)) = true ∧
    isBoundaryPix c1Image (152, 152, 152) 15 (3, 3) = false ∧
    magic_wand_select_boundary 10 10 c1Image 3 3 (152, 152, 152) 15 =
      Except.ok c1Result ∧
    c1Result.mask ≠ [] ∧
    ((3, 3) : Pos) ∈ c1Result.mask :=
  ⟨by decide, by decide, rfl, by decide,
    (C2_boundary_mask_invariants 10 10 c1Image (152, 152, 152) 15 3 3
      c1Result (by decide) (by decide) rfl (by decide)).1⟩

/-- C9: a seed outside [0, width) x [0, height) is rejected in both
flood-fill modes with the out-of-bounds `ValueError` before any fill work,
and the endpoint surfaces it as a structured `success=False` response
rather than a crash. -/
theorem C9_seed_out_of_bounds (fill : List Pos) (w h : Int)
    (image : Pos → Color) (bc : Color) (btol tol sx sy : Int)
    (mrefine : List Pos → List Pos)
    (contoursOf : List Pos → List (List Pt))
    (approx : ℚ → List Pt → List Pt) (stol : ℚ)
    (eps : List (List (List Pt)))
    (hout : inBounds w h (sx, sy) = false) :
    magic_wand_select_boundary w h image sx sy bc btol =
      Except.error (oobMessage sx sy w h) ∧
    magic_wand_select_tolerance fill w h sx sy tol =
      Except.error (oobMessage sx sy w h) ∧
    (∀ mode : Bool,
      magic_wand_route mrefine contoursOf approx fill w h image sx sy mode
        bc btol tol stol eps =
      failureResponse (oobMessage sx sy w h)) := by
  have hb : magic_wand_select_boundary w h image sx sy bc btol =
      Except.error (oobMessage sx sy w h) := by
    unfold magic_wand_select_boundary
    simp only [hout, Bool.false_eq_true, if_false]
  have ht : magic_wand_select_tolerance fill w h sx sy tol =
      Except.error (oobMessage sx sy w h) := by
    unfold magic_wand_select_tolerance
    simp only [hout, Bool.false_eq_true, if_false]
  refine ⟨hb, ht, ?_⟩
  intro mode
  unfold magic_wand_route magic_wand_select
  cases mode
  · simp only [Bool.false_eq_true, if_false, ht]
  · simp only [if_true, hb]

/-- Witness for C9: seed (5, 0) on a 2x2 image. -/
theorem C9_seed_out_of_bounds_witness :
    inBounds 2 2 ((5 : Int), (0 : Int)) = false ∧
    magic_wand_select_boundary 2 2 grayImage 5 0 (152, 152, 152) 15 =
      Except.error (oobMessage 5 0 2 2) :=
  ⟨by decide,
    (C9_seed_out_of_bounds [] 2 2 grayImage (152, 152, 152) 15 32 5 0
      id (fun _ => []) (fun _ c => c) 2 [] (by decide)).1⟩

lemma centroidLE_refl (a : Pt) : centroidLE a a = true := by
  simp [centroidLE]

lemma centroidLE_trans (a b c : Pt) (h1 : centroidLE a b = true)
    (h2 : centroidLE b c = true) : centroidLE a c = true := by
  simp only [centroidLE, Bool.or_eq_true, Bool.and_eq_true,
    decide_eq_true_eq] at h1 h2 ⊢
  rcases h1 with h1 | ⟨h1e, h1x⟩ <;> rcases h2 with h2 | ⟨h2e, h2x⟩
  · exact Or.inl (lt_trans h1 h2)
  · exact Or.inl (h2e ▸ h1)
  · exact Or.inl (h1e ▸ h2)
  · exact Or.inr ⟨h1e.trans h2e, le_trans h1x h2x⟩

lemma centroidLE_total (a b : Pt) :
    (centroidLE a b || centroidLE b a) = true := by
  simp only [centroidLE, Bool.or_eq_true, Bool.and_eq_true,
    decide_eq_true_eq]
  rcases lt_trichotomy a.2 b.2 with hlt | heq | hgt
  · exact Or.inl (Or.inl hlt)
  · rcases le_total a.1 b.1 with hx | hx
    · exact Or.inl (Or.inr ⟨heq, hx⟩)
    · exact Or.inr (Or.inr ⟨heq.symm, hx⟩)
  · exact Or.inr (Or.inl hgt)

lemma zone_trans (a b c : Pt × List (List Pt))
    (h1 : centroidLE a.1 b.1 = true) (h2 : centroidLE b.1 c.1 = true) :
    centroidLE a.1 c.1 = true :=
  centroidLE_trans a.1 b.1 c.1 h1 h2

lemma zone_total (a b : Pt × List (List Pt)) :
    (centroidLE a.1 b.1 || centroidLE b.1 a.1) = true :=
  centroidLE_total a.1 b.1

lemma assign_map_snd (polygons : List (List (List Pt))) :
    (assign_zone_ids polygons).map Prod.snd =
      ((polygons.map (fun p => (compute_centroid p, p))).mergeSort
        (fun a b => centroidLE a.1 b.1)).map Prod.snd := by
  show (((polygons.map (fun p => (compute_centroid p, p))).mergeSort
      (fun a b => centroidLE a.1 b.1)).enum.map
        (fun iz => (zoneId (iz.1 + 1), iz.2.2))).map Prod.snd = _
  rw [List.map_map]
  have h1 : (Prod.snd ∘ fun iz : Nat × (Pt × List (List Pt)) =>
      (zoneId (iz.1 + 1), iz.2.2)) =
      (Prod.snd ∘ (Prod.snd : Nat × (Pt × List (List Pt)) → _)) := rfl
  rw [h1, ← List.map_map, List.enum_map_snd]

/-- C4: ZoneAssigner emits a permutation of its input sorted by centroid
y then x ascending (Python-stably: equal-centroid polygons keep their
input order), with 1-based ids `ZONE_%04d`; on the five example polygons
with centroids (5,20),(5,5),(20,5),(1,1),(30,30) the output is
(1,1)->ZONE_0001, (5,5)->ZONE_0002, (20,5)->ZONE_0003, (5,20)->ZONE_0004,
(30,30)->ZONE_0005. -/
theorem C4_zone_assignment (polygons : List (List (List Pt))) :
    ((assign_zone_ids polygons).map Prod.snd).Perm polygons ∧
    List.Pairwise (fun a b => centroidLE a b = true)
      ((assign_zone_ids polygons).map (fun z => compute_centroid z.2)) ∧
    (∀ p q : List (List Pt), compute_centroid p = compute_centroid q →
      [p, q].Sublist polygons →
      [p, q].Sublist ((assign_zone_ids polygons).map Prod.snd)) ∧
    (∀ k (hk : k < (assign_zone_ids polygons).length),
      ((assign_zone_ids polygons).get ⟨k, hk⟩).1 = zoneId (k + 1)) ∧
    assign_zone_ids zonePolysExample =
      [(("ZONE_0001" : String), sqAt 1 1), ("ZONE_0002", sqAt 5 5),
       ("ZONE_0003", sqAt 20 5), ("ZONE_0004", sqAt 5 20),
       ("ZONE_0005", sqAt 30 30)] := by
  refine ⟨?_, ?_, ?_, ?_, ?_⟩
  · rw [assign_map_snd]
    have hperm := (List.mergeSort_perm
      (polygons.map (fun p => (compute_centroid p, p)))
      (fun a b => centroidLE a.1 b.1)).map Prod.snd
    refine hperm.trans ?_
    rw [List.map_map]
    have : (Prod.snd ∘ fun p : List (List Pt) => (compute_centroid p, p)) =
        id := rfl
    rw [this, List.map_id]
  · have hsort := List.sorted_mergeSort zone_trans zone_total
      (polygons.map (fun p => (compute_centroid p, p)))
    have hfst : ∀ d ∈ (polygons.map
        (fun p => (compute_centroid p, p))).mergeSort
          (fun a b => centroidLE a.1 b.1),
        d.1 = compute_centroid d.2 := by
      intro d hd
      have hmem := (List.mergeSort_perm _ _).mem_iff.1 hd
      rcases List.mem_map.1 hmem with ⟨p, _, rfl⟩
      rfl
    have hgoal : (assign_zone_ids polygons).map
        (fun z => compute_centroid z.2) =
        ((polygons.map (fun p => (compute_centroid p, p))).mergeSort
          (fun a b => centroidLE a.1 b.1)).map
            (fun d => compute_centroid d.2) := by
      have h2 : (assign_zone_ids polygons).map
          (fun z => compute_centroid z.2) =
          ((assign_zone_ids polygons).map Prod.snd).map compute_centroid := by
        rw [List.map_map]
        rfl
      rw [h2, assign_map_snd, List.map_map]
      rfl
    rw [hgoal, List.pairwise_map]
    refine hsort.imp_of_mem ?_
    intro a b ha hb hr
    rw [← hfst a ha, ← hfst b hb]
    exact hr
  · intro p q hcc hsub
    have hsub2 : ([p, q].map (fun r => (compute_centroid r, r))).Sublist
        (polygons.map (fun r => (compute_centroid r, r))) :=
      hsub.map _
    have hpair : List.Pairwise
        (fun a b : Pt × List (List Pt) => centroidLE a.1 b.1 = true)
        ([p, q].map (fun r => (compute_centroid r, r))) := by
      have hne : ([p, q].map (fun r => (compute_centroid r, r))) =
          [(compute_centroid p, p), (compute_centroid q, q)] := rfl
      rw [hne, List.pairwise_pair]
      show centroidLE (compute_centroid p) (compute_centroid q) = true
      rw [hcc]
      exact centroidLE_refl _
    have hsl := List.sublist_mergeSort zone_trans zone_total hpair hsub2
    have hfinal := hsl.map Prod.snd
    have hl : ([p, q].map (fun r => (compute_centroid r, r))).map Prod.snd
        = [p, q] := rfl
    rw [hl] at hfinal
    rw [assign_map_snd]
    exact hfinal
  · intro k hk
    have hlen : (assign_zone_ids polygons).length =
        ((polygons.map (fun p => (compute_centroid p, p))).mergeSort
          (fun a b => centroidLE a.1 b.1)).enum.length := by
      show (((polygons.map (fun p => (compute_centroid p, p))).mergeSort
        (fun a b => centroidLE a.1 b.1)).enum.map
          (fun iz => (zoneId (iz.1 + 1), iz.2.2))).length = _
      rw [List.length_map]
    rw [List.get_eq_getElem]
    show (((polygons.map (fun p => (compute_centroid p, p))).mergeSort
      (fun a b => centroidLE a.1 b.1)).enum.map
        (fun iz => (zoneId (iz.1 + 1), iz.2.2)))[k].1 = zoneId (k + 1)
    rw [List.getElem_map, List.getElem_enum]
  · norm_num [assign_zone_ids, zonePolysExample, compute_centroid, sqAt,
      centroidLE, zoneId, pad4, List.mergeSort, List.merge]
    rfl

/-- Witness for C4: the stability clause applied to two equal-centroid
polygons. -/
theorem C4_zone_assignment_witness :
    compute_centroid (sqAt 1 1) = compute_centroid (sqAt 1 1) ∧
    [sqAt 1 1, sqAt 1 1].Sublist [sqAt 1 1, sqAt 1 1] ∧
    [sqAt 1 1, sqAt 1 1].Sublist
      ((assign_zone_ids [sqAt 1 1, sqAt 1 1]).map Prod.snd) :=
  ⟨rfl, List.Sublist.refl _,
    (C4_zone_assignment [sqAt 1 1, sqAt 1 1]).2.2.1 (sqAt 1 1) (sqAt 1 1)
      rfl (List.Sublist.refl _)⟩

/-- C5 counterexample: on the square (0,0)-(4,4) traced with an extra
collinear vertex, the signed area is nonzero (no fallback), the spec's
first-moment centroid is (2, 2), but the centroid ZoneAssigner computes
and uses as sort key is the vertex mean (2, 8/5) — the claim that the
sort key is the signed-area-weighted centroid is false. -/
theorem C5_centroid_counterexample :
    specRingArea c5Ring ≠ 0 ∧
    specCentroid c5Ring = (2, 2) ∧
    compute_centroid [c5Ring] = (2, 8 / 5) ∧
    compute_centroid [c5Ring] ≠ specCentroid c5Ring := by
  have h1 : specCentroid c5Ring = (2, 2) := by
    norm_num [specCentroid, specRingArea, c5Ring, cross2]
  have h2 : compute_centroid [c5Ring] = (2, 8 / 5) := by
    norm_num [compute_centroid, c5Ring]
  refine ⟨by norm_num [specRingArea, c5Ring, cross2], h1, h2, ?_⟩
  rw [h1, h2]
  intro hcontra
  have := congrArg Prod.snd hcontra
  norm_num at this

/-- C5 amended: the centroid `assign_zone_ids` computes for each polygon
and uses as the sort key is the plain arithmetic mean of the exterior
ring's vertices with the closing point dropped — not the
signed-area-weighted centroid, and with no bounding-box-center fallback
tied to zero signed area. -/
theorem C5_centroid_amended (ring : List Pt) (rest : List (List Pt))
    (hlen : 1 < ring.length) :
    compute_centroid (ring :: rest) =
      ((ring.dropLast.map Prod.fst).sum / (ring.dropLast.length : ℚ),
       (ring.dropLast.map Prod.snd).sum / (ring.dropLast.length : ℚ)) := by
  match ring, hlen with
  | a :: t, hlen2 =>
    have hpos : 0 < (a :: t).dropLast.length := by
      rw [List.length_dropLast]
      simp only [List.length_cons] at hlen2 ⊢
      omega
    show (if 0 < (a :: t).dropLast.length then
        (((a :: t).dropLast.map Prod.fst).sum /
            ((a :: t).dropLast.length : ℚ),
         ((a :: t).dropLast.map Prod.snd).sum /
            ((a :: t).dropLast.length : ℚ))
      else (0, 0)) = _
    rw [if_pos hpos]

/-- Witness for C5's amended claim at the counterexample ring. -/
theorem C5_centroid_amended_witness :
    1 < c5Ring.length ∧
    compute_centroid [c5Ring] =
      ((c5Ring.dropLast.map Prod.fst).sum / (c5Ring.dropLast.length : ℚ),
       (c5Ring.dropLast.map Prod.snd).sum /
         (c5Ring.dropLast.length : ℚ)) :=
  ⟨by norm_num [c5Ring],
    C5_centroid_amended c5Ring [] (by norm_num [c5Ring])⟩

/-- C6 counterexample: with three control points — too few to solve a
homography — and no bounding box, `transform_coordinates` does not fail
fatally: it silently returns the untransformed pixel-space features (the
solver oracles, here always failing, are never consulted), and the
`georeferenced` metadata flag of `process_image` still reports `true`. -/
theorem C6_transform_counterexample :
    transform_coordinates
      (fun _ => Except.error "degenerate")
      (fun _ => Except.error "degenerate")
      [[[(0, 0), (1, 0), (1, 1), (0, 0)]]] 10 10
      (some [⟨0, 0, 0, 0⟩, ⟨1, 0, 1, 0⟩, ⟨0, 1, 0, 1⟩]) none =
      Except.ok [[[(0, 0), (1, 0), (1, 1), (0, 0)]]] ∧
    georeferenced_flag
      (some [⟨0, 0, 0, 0⟩, ⟨1, 0, 1, 0⟩, ⟨0, 1, 0, 1⟩]) none = true :=
  ⟨rfl, rfl⟩

/-- C6 amended: with no bounding box and fewer than 4 control points the
georeference transform is silently skipped — the pixel-space features are
returned unchanged with no failure, and the metadata still marks the
output georeferenced whenever the control-point list is nonempty.  Only
the branches with at least 4 control points can fail fatally, when the
external homography solver fails. -/
theorem C6_transform_amended
    (solve4 solveN : List GeoreferencePoint → Except String (Pt → Pt))
    (features : List (List (List Pt))) (iw ih : ℚ)
    (cps : List GeoreferencePoint) (hlt : cps.length < 4) :
    transform_coordinates solve4 solveN features iw ih (some cps) none =
      Except.ok features ∧
    (cps ≠ [] → georeferenced_flag (some cps) none = true) ∧
    (∀ (cps2 : List GeoreferencePoint) (e : String),
      cps2.length = 4 → solve4 cps2 = Except.error e →
      transform_coordinates solve4 solveN features iw ih (some cps2) none =
        Except.error e) := by
  refine ⟨?_, ?_, ?_⟩
  · simp only [transform_coordinates]
    rw [if_neg (by omega : ¬ 4 ≤ cps.length)]
  · intro hne
    unfold georeferenced_flag
    simp [hne]
  · intro cps2 e hlen hsolve
    simp only [transform_coordinates]
    rw [if_pos (by omega : 4 ≤ cps2.length), if_pos hlen, hsolve]

/-- Witness for C6's amended claim at three concrete control points. -/
theorem C6_transform_amended_witness :
    ([⟨0, 0, 0, 0⟩, ⟨1, 0, 1, 0⟩,
      (⟨0, 1, 0, 1⟩ : GeoreferencePoint)] : List GeoreferencePoint).length
        < 4 ∧
    transform_coordinates
      (fun _ => Except.error "degenerate")
      (fun _ => Except.error "degenerate")
      [[[(0, 0), (1, 0), (1, 1), (0, 0)]]] 10 10
      (some [⟨0, 0, 0, 0⟩, ⟨1, 0, 1, 0⟩, ⟨0, 1, 0, 1⟩]) none =
      Except.ok [[[(0, 0), (1, 0), (1, 1), (0, 0)]]] :=
  ⟨by decide,
    (C6_transform_amended (fun _ => Except.error "degenerate")
      (fun _ => Except.error "degenerate")
      [[[(0, 0), (1, 0), (1, 1), (0, 0)]]] 10 10
      [⟨0, 0, 0, 0⟩, ⟨1, 0, 1, 0⟩, ⟨0, 1, 0, 1⟩] (by decide)).1⟩

/-- C10: on the single-polygon magic-wand path, a selection whose largest
external contour has area strictly below the absolute threshold of 10
square pixels yields no polygon — for every simplify tolerance and every
simplification oracle, since the area check precedes simplification — and
the endpoint then reports the "no valid region" failure. -/
theorem C10_min_area_threshold (approx : ℚ → List Pt → List Pt)
    (contours : List (List Pt)) (stol : ℚ)
    (hlt : contourArea (maxByArea contours) < 10) :
    mask_to_polygon approx contours stol = none ∧
    (∀ (mrefine : List Pos → List Pos)
       (contoursOf : List Pos → List (List Pt)) (fill : List Pos)
       (w h : Int) (image : Pos → Color) (cx cy : Int) (mode : Bool)
       (bc : Color) (btol tol : Int) (eps : List (List (List Pt)))
       (res : SelectResult),
      magic_wand_select fill w h image cx cy mode bc btol tol =
        Except.ok res →
      res.error ≠ some "selection_too_large" →
      contoursOf (mrefine res.mask) = contours →
      magic_wand_route mrefine contoursOf approx fill w h image cx cy mode
        bc btol tol stol eps =
      failureResponse ("No valid region selected. Try adjusting " ++
        "tolerance or clicking elsewhere.")) := by
  have hnone : mask_to_polygon approx contours stol = none := by
    match contours with
    | [] => rfl
    | c :: cs =>
      simp only [mask_to_polygon]
      rw [if_pos hlt]
  refine ⟨hnone, ?_⟩
  intro mrefine contoursOf fill w h image cx cy mode bc btol tol eps res
    hsel hne hcon
  unfold magic_wand_route
  rw [hsel]
  simp only []
  rw [if_neg hne, hcon, hnone]

/-- Witness for C10: the spec-example selection with a contour oracle
returning one triangle of area 9/2 < 10. -/
theorem C10_min_area_threshold_witness :
    contourArea (maxByArea [[(0, 0), (3, 0), (0, 3)]]) < 10 ∧
    magic_wand_select [] 10 10 c1Image 3 3 true (152, 152, 152) 15 32 =
      Except.ok c1Result ∧
    c1Result.error ≠ some "selection_too_large" ∧
    magic_wand_route id (fun _ => [[(0, 0), (3, 0), (0, 3)]])
      (fun _ c => c) [] 10 10 c1Image 3 3 true (152, 152, 152) 15 32 2
      [] =
    failureResponse ("No valid region selected. Try adjusting " ++
      "tolerance or clicking elsewhere.") := by
  have harea : contourArea (maxByArea [[(0, 0), (3, 0), (0, 3)]]) < 10 := by
    norm_num [contourArea, maxByArea, cyclePairs, cross2]
  refine ⟨harea, rfl, by decide, ?_⟩
  exact (C10_min_area_threshold (fun _ c => c)
    [[(0, 0), (3, 0), (0, 3)]] 2 harea).2 id
    (fun _ => [[(0, 0), (3, 0), (0, 3)]]) [] 10 10 c1Image 3 3 true
    (152, 152, 152) 15 32 [] c1Result rfl (by decide) rfl

lemma closeRing_closed (c : List Pt) (hne : c ≠ []) :
    (closeRing c).head? = (closeRing c).getLast? ∧
    c.length ≤ (closeRing c).length := by
  match c, hne with
  | p :: t, _ =>
    simp only [closeRing]
    by_cases hl : (p :: t).getLast? = some p
    · rw [if_pos hl]
      refine ⟨?_, le_refl _⟩
      rw [hl]
      rfl
    · rw [if_neg hl]
      constructor
      · rw [List.getLast?_concat]
        rfl
      · rw [List.length_append]
        simp

/-- C8 counterexample: the batch vectorization path accepts the contour
[(0,0),(1,1),(1,1)]: the returned ring is closed but has only 2 distinct
points before the closing point, so a region with fewer than 3 distinct
vertices is returned rather than dropped. -/
theorem C8_ring_counterexample :
    contour_to_polygon [(0, 0), (1, 1), (1, 1)] =
      some [[(0, 0), (1, 1), (1, 1), (0, 0)]] ∧
    ([(0, 0), (1, 1), (1, 1), (0, 0)] : List Pt).dropLast.dedup.length
      = 2 := by
  constructor
  · norm_num [contour_to_polygon, closeRing]
  · norm_num [List.dedup]

/-- C8 amended: every ring either vectorization path returns is
explicitly closed (first point equals last), with at least 3 points
counted with multiplicity on the mask path and at least 4 coordinates
after closing on the batch path; rings are dropped by raw point count
(fewer than 3 simplified points, or fewer than 4 closed coordinates),
not by number of distinct points, so 3 distinct points before closure
are not guaranteed. -/
theorem C8_ring_amended :
    (∀ (contour : List Pt) (out : List (List Pt)),
      contour_to_polygon contour = some out →
      ∃ r, out = [r] ∧ r.head? = r.getLast? ∧ 4 ≤ r.length) ∧
    (∀ (approx : ℚ → List Pt → List Pt) (contours : List (List Pt))
       (stol : ℚ) (out : PolyOut),
      mask_to_polygon approx contours stol = some out →
      ∃ r, out.polygon = [r] ∧ r.head? = r.getLast? ∧ 3 ≤ r.length) := by
  constructor
  · intro contour out h
    match contour, h with
    | x :: y :: t, h =>
      simp only [contour_to_polygon] at h
      split at h
      · exact absurd h (by simp)
      · rename_i hlen
        refine ⟨closeRing (x :: y :: t), ?_, ?_, ?_⟩
        · injection h with h2
          exact h2.symm
        · exact (closeRing_closed (x :: y :: t) (by simp)).1
        · omega
  · intro approx contours stol out h
    match contours, h with
    | c :: cs, h =>
      simp only [mask_to_polygon] at h
      split at h
      · exact absurd h (by simp)
      · split at h
        · exact absurd h (by simp)
        · rename_i hlen
          refine ⟨closeRing (approx stol (maxByArea (c :: cs))), ?_, ?_, ?_⟩
          · injection h with h2
            rw [← h2]
          · refine (closeRing_closed _ ?_).1
            intro hnil
            rw [hnil] at hlen
            simp at hlen
          · have := (closeRing_closed (approx stol (maxByArea (c :: cs)))
              (by intro hnil; rw [hnil] at hlen; simp at hlen)).2
            omega

/-- Witness for C8's amended claim at the counterexample contour. -/
theorem C8_ring_amended_witness :
    contour_to_polygon [(0, 0), (1, 1), (1, 1)] =
      some [[(0, 0), (1, 1), (1, 1), (0, 0)]] ∧
    ∃ r, [[((0 : ℚ), (0 : ℚ)), (1, 1), (1, 1), (0, 0)]] = [r] ∧
      r.head? = r.getLast? ∧ 4 ≤ r.length := by
  have hcp : contour_to_polygon [(0, 0), (1, 1), (1, 1)] =
      some [[(0, 0), (1, 1), (1, 1), (0, 0)]] := by
    norm_num [contour_to_polygon, closeRing]
  exact ⟨hcp, C8_ring_amended.1 [(0, 0), (1, 1), (1, 1)]
    [[(0, 0), (1, 1), (1, 1), (0, 0)]] hcp⟩

lemma sq1_x_le (x y : ℚ) (h : pointInOrOn c7Sq1 (x, y) = true) : x ≤ 10 := by
  have hedges : ringEdges c7Sq1 =
      [((0, 0), (10, 0)), ((10, 0), (10, 10)),
       ((10, 10), (0, 10)), ((0, 10), (0, 0))] := rfl
  simp only [pointInOrOn, Bool.or_eq_true] at h
  rcases h with h | h
  · simp only [pointOnRing, hedges, List.any_eq_true] at h
    obtain ⟨e, he, hseg⟩ := h
    simp only [List.mem_cons, List.not_mem_nil, or_false] at he
    rcases he with rfl | rfl | rfl | rfl <;>
      simp only [onSeg, Bool.and_eq_true, decide_eq_true_eq] at hseg <;>
      [skip; skip; skip; skip] <;>
      · obtain ⟨⟨⟨⟨_, _⟩, hmax⟩, _⟩, _⟩ := hseg
        norm_num at hmax
        linarith
  · simp only [pointInRing, hedges, List.countP_cons, List.countP_nil,
      decide_eq_true_eq] at h
    have h1 : rayCrosses (x, y) ((0, 0), (10, 0)) = false := by
      simp [rayCrosses]
    have h3 : rayCrosses (x, y) ((10, 10), (0, 10)) = false := by
      simp [rayCrosses]
    by_cases hx : x ≤ 10
    · exact hx
    · exfalso
      push_neg at hx
      have hc2 : rayCrosses (x, y) ((10, 0), (10, 10)) = false := by
        simp only [rayCrosses]
        have ht : (10 : ℚ) + (y - 0) * (10 - 10) / (10 - 0) = 10 := by
          norm_num
        rw [ht]
        have : decide (x < (10 : ℚ)) = false :=
          decide_eq_false (by linarith)
        rw [this, Bool.and_false]
      have hc4 : rayCrosses (x, y) ((0, 10), (0, 0)) = false := by
        simp only [rayCrosses]
        have ht : (0 : ℚ) + (y - 10) * (0 - 0) / (0 - 10) = 0 := by
          norm_num
        rw [ht]
        have : decide (x < (0 : ℚ)) = false :=
          decide_eq_false (by linarith)
        rw [this, Bool.and_false]
      rw [h1, h3, hc2, hc4] at h
      simp at h

lemma sq2_x_ge (x y : ℚ) (h : pointInOrOn c7Sq2 (x, y) = true) : 10 ≤ x := by
  have hedges : ringEdges c7Sq2 =
      [((10, 0), (20, 0)), ((20, 0), (20, 10)),
       ((20, 10), (10, 10)), ((10, 10), (10, 0))] := rfl
  simp only [pointInOrOn, Bool.or_eq_true] at h
  rcases h with h | h
  · simp only [pointOnRing, hedges, List.any_eq_true] at h
    obtain ⟨e, he, hseg⟩ := h
    simp only [List.mem_cons, List.not_mem_nil, or_false] at he
    rcases he with rfl | rfl | rfl | rfl <;>
      simp only [onSeg, Bool.and_eq_true, decide_eq_true_eq] at hseg <;>
      [skip; skip; skip; skip] <;>
      · obtain ⟨⟨⟨⟨_, hmin⟩, _⟩, _⟩, _⟩ := hseg
        norm_num at hmin
        linarith
  · simp only [pointInRing, hedges, List.countP_cons, List.countP_nil,
      decide_eq_true_eq] at h
    have h1 : rayCrosses (x, y) ((10, 0), (20, 0)) = false := by
      simp [rayCrosses]
    have h3 : rayCrosses (x, y) ((20, 10), (10, 10)) = false := by
      simp [rayCrosses]
    by_cases hx : 10 ≤ x
    · exact hx
    · exfalso
      push_neg at hx
      have hd2 : decide (x < (20 : ℚ) + (y - 0) * (20 - 20) / (10 - 0)) =
          true := by
        have ht : (20 : ℚ) + (y - 0) * (20 - 20) / (10 - 0) = 20 := by
          norm_num
        rw [ht]
        exact decide_eq_true (by linarith)
      have hd4 : decide (x < (10 : ℚ) + (y - 10) * (10 - 10) / (0 - 10)) =
          true := by
        have ht : (10 : ℚ) + (y - 10) * (10 - 10) / (0 - 10) = 10 := by
          norm_num
        rw [ht]
        exact decide_eq_true (by linarith)
      have hc2 : rayCrosses (x, y) ((20, 0), (20, 10)) =
          (decide (y < 0) != decide (y < 10)) := by
        simp only [rayCrosses]
        rw [hd2, Bool.and_true]
      have hc4 : rayCrosses (x, y) ((10, 10), (10, 0)) =
          (decide (y < 10) != decide (y < 0)) := by
        simp only [rayCrosses]
        rw [hd4, Bool.and_true]
      rw [h1, h3, hc2, hc4] at h
      cases hb0 : decide (y < (0 : ℚ)) <;>
        cases hb10 : decide (y < (10 : ℚ)) <;>
        rw [hb0, hb10] at h <;> simp at h

lemma ringsIntersect_touch : ringsIntersect c7Sq1 c7Sq2 = true := by
  norm_num [ringsIntersect, ringEdges, closeRing, c7Sq1, c7Sq2,
    segsIntersect, onSeg, cross3, pointInOrOn, pointOnRing, pointInRing,
    rayCrosses, List.zip, List.zipWith, List.countP_cons, List.countP_nil]

lemma ringsIntersect_far : ringsIntersect c7Sq1 c7Far = false := by
  norm_num [ringsIntersect, ringEdges, closeRing, c7Sq1, c7Far,
    segsIntersect, onSeg, cross3, pointInOrOn, pointOnRing, pointInRing,
    rayCrosses, List.zip, List.zipWith, List.countP_cons, List.countP_nil]

lemma checkOverlapLoop_iff (newRing : List Pt) :
    ∀ l : List (List (List Pt)),
      (∀ ex ∈ l, ∀ r, ex.head? = some r → r = [] ∨ 3 ≤ r.length) →
      (checkOverlapLoop newRing l = true ↔
        ∃ ex ∈ l, ∃ r, ex.head? = some r ∧ r ≠ [] ∧
          ringsIntersect newRing r = true) := by
  intro l
  induction l with
  | nil =>
    intro hw
    simp [checkOverlapLoop]
  | cons ex rest ih =>
    intro hw
    have hwrest : ∀ ex2 ∈ rest, ∀ r, ex2.head? = some r →
        r = [] ∨ 3 ≤ r.length :=
      fun ex2 h2 => hw ex2 (List.mem_cons_of_mem _ h2)
    match ex with
    | [] =>
      show checkOverlapLoop newRing rest = true ↔ _
      rw [ih hwrest]
      constructor
      · rintro ⟨ex2, h2, r, hh, hr⟩
        exact ⟨ex2, List.mem_cons_of_mem _ h2, r, hh, hr⟩
      · rintro ⟨ex2, h2, r, hh, hr⟩
        rcases List.mem_cons.1 h2 with rfl | h2
        · exact absurd hh (by simp)
        · exact ⟨ex2, h2, r, hh, hr⟩
    | ring :: rs =>
      by_cases hr0 : ring = []
      · have hstep : checkOverlapLoop newRing ((ring :: rs) :: rest) =
            checkOverlapLoop newRing rest := by
          simp only [checkOverlapLoop]
          rw [if_pos hr0]
        rw [hstep, ih hwrest]
        constructor
        · rintro ⟨ex2, h2, r, hh, hr⟩
          exact ⟨ex2, List.mem_cons_of_mem _ h2, r, hh, hr⟩
        · rintro ⟨ex2, h2, r, hh, hr⟩
          rcases List.mem_cons.1 h2 with rfl | h2
          · simp only [List.head?_cons, Option.some.injEq] at hh
            exact absurd (hh ▸ hr0) hr.1
          · exact ⟨ex2, h2, r, hh, hr⟩
      · have hlen : ¬ (ring.length = 1 ∨ ring.length = 2) := by
          rcases hw (ring :: rs) (List.mem_cons_self _ _) ring rfl with
            hc | hc
          · exact absurd hc hr0
          · omega
        by_cases hint : ringsIntersect newRing ring = true
        · have hstep : checkOverlapLoop newRing ((ring :: rs) :: rest) =
              true := by
            simp only [checkOverlapLoop]
            rw [if_neg hr0, if_neg hlen, if_pos hint]
          rw [hstep]
          simp only [true_iff]
          exact ⟨ring :: rs, List.mem_cons_self _ _, ring, rfl, hr0, hint⟩
        · have hstep : checkOverlapLoop newRing ((ring :: rs) :: rest) =
              checkOverlapLoop newRing rest := by
            simp only [checkOverlapLoop]
            rw [if_neg hr0, if_neg hlen, if_neg hint]
          rw [hstep, ih hwrest]
          constructor
          · rintro ⟨ex2, h2, r, hh, hr⟩
            exact ⟨ex2, List.mem_cons_of_mem _ h2, r, hh, hr⟩
          · rintro ⟨ex2, h2, r, hh, hr⟩
            rcases List.mem_cons.1 h2 with rfl | h2
            · simp only [List.head?_cons, Option.some.injEq] at hh
              exact absurd (hh ▸ hr.2) hint
            · exact ⟨ex2, h2, r, hh, hr⟩

lemma check_overlap_iff (newRing : List Pt)
    (existing : List (List (List Pt)))
    (hnew : newRing.length ≠ 1 ∧ newRing.length ≠ 2)
    (hex : ∀ ex ∈ existing, ∀ r, ex.head? = some r →
      r = [] ∨ 3 ≤ r.length) :
    (check_overlap newRing existing = true ↔
      ∃ ex ∈ existing, ∃ r, ex.head? = some r ∧ r ≠ [] ∧
        ringsIntersect newRing r = true) := by
  unfold check_overlap
  by_cases he : existing = []
  · subst he
    simp
  · rw [if_neg he, if_neg (fun hcon => hcon.elim hnew.1 hnew.2)]
    exact checkOverlapLoop_iff newRing existing hex

lemma c7_exguard :
    ∀ ex ∈ [[c7Sq2]], ∀ r, ex.head? = some r → r = [] ∨ 3 ≤ r.length := by
  intro ex hex r hr
  simp only [List.mem_singleton] at hex
  subst hex
  simp only [List.head?_cons, Option.some.injEq] at hr
  subst hr
  right
  decide

/-- C7 counterexample: the squares (0,0)-(10,10) and (10,0)-(20,10) touch
along the segment x = 10 and share no area (any open box lying in both is
impossible, since every common point has x = 10), yet `check_overlap`
reports them as overlapping — refuting "returns true exactly when sharing
non-empty area; touching does not count". -/
theorem C7_overlap_counterexample :
    check_overlap c7Sq1 [[c7Sq2]] = true ∧ ¬ sharesArea c7Sq1 c7Sq2 := by
  constructor
  · rw [check_overlap_iff c7Sq1 [[c7Sq2]] (by decide) c7_exguard]
    exact ⟨[c7Sq2], List.mem_cons_self _ _, c7Sq2, rfl, by simp [c7Sq2],
      ringsIntersect_touch⟩
  · rintro ⟨a, b, eps, heps, hbox⟩
    have hb0 : |b - b| < eps := by
      simp only [sub_self, abs_zero]
      exact heps
    have hx1 : |a - eps / 2 - a| < eps := by
      have : a - eps / 2 - a = -(eps / 2) := by ring
      rw [this, abs_neg, abs_of_pos (by linarith)]
      linarith
    have hx2 : |a + eps / 2 - a| < eps := by
      have : a + eps / 2 - a = eps / 2 := by ring
      rw [this, abs_of_pos (by linarith)]
      linarith
    have h1 := hbox (a - eps / 2) b hx1 hb0
    have h2 := hbox (a + eps / 2) b hx2 hb0
    have e1 : a - eps / 2 = 10 :=
      le_antisymm (sq1_x_le _ _ h1.1) (sq2_x_ge _ _ h1.2)
    have e2 : a + eps / 2 = 10 :=
      le_antisymm (sq1_x_le _ _ h2.1) (sq2_x_ge _ _ h2.2)
    linarith

/-- C7 amended: `check_overlap` returns true exactly when some existing
polygon's (nonempty) exterior ring shares at least one point with the
candidate's region — shapely `intersects` semantics, under which mere
boundary touching counts as overlap — and it returns false for disjoint
polygons (here shown for two far-apart squares).  Stated for well-formed
inputs: rings that do not make `ShapelyPolygon` raise. -/
theorem C7_overlap_amended (newRing : List Pt)
    (existing : List (List (List Pt)))
    (hnew : newRing.length ≠ 1 ∧ newRing.length ≠ 2)
    (hex : ∀ ex ∈ existing, ∀ r, ex.head? = some r →
      r = [] ∨ 3 ≤ r.length) :
    (check_overlap newRing existing = true ↔
      ∃ ex ∈ existing, ∃ r, ex.head? = some r ∧ r ≠ [] ∧
        ringsIntersect newRing r = true) ∧
    check_overlap c7Sq1 [[c7Far]] = false := by
  constructor
  · exact check_overlap_iff newRing existing hnew hex
  · have hguard : ∀ ex ∈ [[c7Far]], ∀ r, ex.head? = some r →
        r = [] ∨ 3 ≤ r.length := by
      intro ex hex2 r hr
      simp only [List.mem_singleton] at hex2
      subst hex2
      simp only [List.head?_cons, Option.some.injEq] at hr
      subst hr
      right
      decide
    rw [Bool.eq_false_iff]
    intro hcon
    rw [check_overlap_iff c7Sq1 [[c7Far]] (by decide) hguard] at hcon
    obtain ⟨ex, hexm, r, hh, _, hint⟩ := hcon
    simp only [List.mem_singleton] at hexm
    subst hexm
    simp only [List.head?_cons, Option.some.injEq] at hh
    subst hh
    rw [ringsIntersect_far] at hint
    exact absurd hint (by simp)

/-- Witness for C7's amended claim at the touching squares. -/
theorem C7_overlap_amended_witness :
    (c7Sq1.length ≠ 1 ∧ c7Sq1.length ≠ 2) ∧
    (check_overlap c7Sq1 [[c7Sq2]] = true ↔
      ∃ ex ∈ [[c7Sq2]], ∃ r, ex.head? = some r ∧ r ≠ [] ∧
        ringsIntersect c7Sq1 r = true) :=
  ⟨by decide,
    (C7_overlap_amended c7Sq1 [[c7Sq2]] (by decide) c7_exguard).1⟩

end MapSpec
